import Mathlib

/-!
Aspect-ratio classification and fast-start rewriting (`aspect_ratio.go`).

A shallow embedding of the three functions of `aspect_ratio.go`:

* `getVideoAspectRatio` (lines 20-59),
* `processVideoForFastStart` (lines 61-70),
* `getVideoPrefixFromAspectRatio` (lines 74-83).

The two external collaborators (the subprocess runner of `os/exec` and
`json.Unmarshal`) are parameters of the embedding, gathered in `World`;
`jsonUnmarshal` instantiates the second one with the decoding rules of
`encoding/json` for the struct of lines 11-16.

Go's `float64` arithmetic is embedded exactly: a `float64` value is the
rational number it denotes, and every operation returns the correctly
rounded (round to nearest, ties to even, 53 significant bits) value of the
exact result, as IEEE-754 binary64 prescribes.  The exponent range is left
unbounded.  Go's `int` is taken to be 64 bits wide; for non-zero 64-bit
`width` and `height` the converted operands and the computed ratio lie
between `2^-64` and `2^64` in magnitude (`ratioOf_range`), and a difference
of two binary64 values is a multiple of the smaller unit in the last place,
so neither overflow nor underflow can occur and the embedding coincides
with the machine arithmetic.
-/

namespace F64

/-- Nearest integer to `q`, a tie going to the even neighbour. -/
def roundHalfEven (q : ℚ) : ℤ :=
  if q - ⌊q⌋ < 1 / 2 then ⌊q⌋
  else if 1 / 2 < q - ⌊q⌋ then ⌊q⌋ + 1
  else if ⌊q⌋ % 2 = 0 then ⌊q⌋ else ⌊q⌋ + 1

/-- Binary exponent of a non-zero rational: the `e` with `2^e ≤ |x| < 2^(e+1)`. -/
def exponent (x : ℚ) : ℤ := Int.log 2 |x|

/-- Unit in the last place of the binade of `x`: 53 significant bits. -/
def ulp (x : ℚ) : ℚ := (2 : ℚ) ^ (exponent x - 52)

/-- Correct rounding of an exact result to binary64 (round to nearest, ties to even). -/
def round (x : ℚ) : ℚ :=
  if x = 0 then 0 else (roundHalfEven (x / ulp x) : ℚ) * ulp x

/-- Conversion `float64(n)` of an integer. -/
def ofInt (n : ℤ) : ℚ := round (n : ℚ)

/-- Quotient `a / b` of two `float64` values (`b` non-zero). -/
def div (a b : ℚ) : ℚ := round (a / b)

/-- Difference `a - b` of two `float64` values. -/
def sub (a b : ℚ) : ℚ := round (a - b)

/-- Value of `math.Abs`. -/
def abs (a : ℚ) : ℚ := |a|

/-- The constant `16.0/9.0`: the exact quotient, rounded once to `float64`. -/
def c16_9 : ℚ := round (16 / 9)

/-- The constant `9.0/16.0`. -/
def c9_16 : ℚ := round (9 / 16)

/-- The constant `0.1`. -/
def c0_1 : ℚ := round (1 / 10)

end F64

/-- A Go `error` value: either one made without a wrapped cause, or one made by
`fmt.Errorf` with `%w`, which keeps its cause. -/
inductive GoError where
  | leaf (msg : String)
  | wrap (msg : String) (cause : GoError)
deriving DecidableEq, Repr

/-- The message of an error, `err.Error()`. -/
def GoError.Error : GoError → String
  | .leaf msg => msg
  | .wrap msg _ => msg

/-- The cause of an error, `errors.Unwrap(err)`. -/
def GoError.Unwrap : GoError → Option GoError
  | .leaf _ => none
  | .wrap _ cause => some cause

/-- The result of `fmt.Errorf(format ++ ": %w", err)`. -/
def errorfWrap (pre : String) (err : GoError) : GoError :=
  .wrap (pre ++ ": " ++ err.Error) err

/-- One element of `ffprobeOutput.Streams`: the anonymous struct of lines 12-15. -/
structure ProbeStream where
  Width : Int
  Height : Int
deriving DecidableEq, Repr

/-- The struct `ffprobeOutput` (lines 11-16). -/
structure ffprobeOutput where
  Streams : List ProbeStream
deriving DecidableEq, Repr

/-- A subprocess to run: the value built by `exec.Command(name, args...)`. -/
structure Cmd where
  name : String
  args : List String
deriving DecidableEq, Repr

/-- The environment of one call: `run` is `cmd.Run()`, giving the bytes written to
standard output and the error (if any); `unmarshal` is `json.Unmarshal` into an
`ffprobeOutput`. -/
structure World where
  run : Cmd → List UInt8 × Option GoError
  unmarshal : List UInt8 → Except GoError ffprobeOutput

/-- How a call of a Go function of type `(string, error)` ends: it returns its two
results or it panics. -/
inductive Outcome where
  | ret (value : String) (err : Option GoError)
  | panic (msg : String)
deriving DecidableEq, Repr

/-- The `%d` verb of `fmt` for an `int`. -/
def fmtInt (n : Int) : String := toString n

/-- The command of line 21. -/
def ffprobeCmd (filePath : String) : Cmd :=
  ⟨"ffprobe", ["-v", "error", "-print_format", "json", "-show_streams", filePath]⟩

/-- The error of line 35. -/
def errNoStreams : GoError := .leaf "no streams found in video file"

/-- The error of line 42. -/
def errInvalidDimensions (width height : Int) : GoError :=
  .leaf ("invalid dimensions in video file: " ++ fmtInt width ++ "x" ++ fmtInt height)

/-- Line 45: `ratio := float64(width) / float64(height)`. -/
def ratioOf (width height : Int) : ℚ := F64.div (F64.ofInt width) (F64.ofInt height)

/-- The condition of line 48. -/
def isLandscape (ratio : ℚ) : Prop := F64.abs (F64.sub ratio F64.c16_9) < F64.c0_1

/-- The condition of line 53. -/
def isPortrait (ratio : ℚ) : Prop := F64.abs (F64.sub ratio F64.c9_16) < F64.c0_1

instance (ratio : ℚ) : Decidable (isLandscape ratio) := by
  unfold isLandscape; infer_instance

instance (ratio : ℚ) : Decidable (isPortrait ratio) := by
  unfold isPortrait; infer_instance

/-- Lines 45-58: the label of a stream with non-zero dimensions. -/
def classify (width height : Int) : String :=
  if isLandscape (ratioOf width height) then "16:9"
  else if isPortrait (ratioOf width height) then "9:16"
  else "other"

/-- Lines 34-58 of `getVideoAspectRatio`: what happens once the output is parsed. -/
def aspectRatioOfOutput (output : ffprobeOutput) : Outcome :=
  if output.Streams.length = 0 then .ret "" (some errNoStreams)
  else
    match output.Streams[0]? with
    | none => .panic "index out of range [0]"
    | some s =>
      if s.Width = 0 ∨ s.Height = 0 then .ret "" (some (errInvalidDimensions s.Width s.Height))
      else .ret (classify s.Width s.Height) none

/-- The function `getVideoAspectRatio` (lines 20-59). -/
def getVideoAspectRatio (W : World) (filePath : String) : Outcome :=
  match W.run (ffprobeCmd filePath) with
  | (_, some err) => .ret "" (some (errorfWrap "failed to run ffprobe" err))
  | (stdout, none) =>
    match W.unmarshal stdout with
    | .error err => .ret "" (some (errorfWrap "failed to parse ffprobe output" err))
    | .ok output => aspectRatioOfOutput output

/-- The command of line 63. -/
def ffmpegCmd (filepath : String) : Cmd :=
  ⟨"ffmpeg", ["-i", filepath, "-c", "copy", "-f", "mp4", "-movflags", "faststart",
    filepath ++ ".processing"]⟩

/-- The function `processVideoForFastStart` (lines 61-70). -/
def processVideoForFastStart (W : World) (filepath : String) : Outcome :=
  let outputPath := filepath ++ ".processing"
  match (W.run (ffmpegCmd filepath)).2 with
  | some err => .ret "" (some (errorfWrap "failed to process video for fast start" err))
  | none => .ret outputPath none

/-- The function `getVideoPrefixFromAspectRatio` (lines 74-83). -/
def getVideoPrefixFromAspectRatio (aspectRatio : String) : String :=
  if aspectRatio = "16:9" then "landscape/"
  else if aspectRatio = "9:16" then "portrait/"
  else "other/"

/-! ## Vocabulary of the specification -/

/-- The probe ran without error and its output parsed to `output`
(lines 21-32 passed). -/
def Probed (W : World) (filePath : String) (output : ffprobeOutput) : Prop :=
  ∃ stdout, W.run (ffprobeCmd filePath) = (stdout, none) ∧ W.unmarshal stdout = .ok output

/-- A world in which every subprocess succeeds with empty output and the parse
yields `output`. -/
def probeWorld (output : ffprobeOutput) : World :=
  ⟨fun _ => ([], none), fun _ => .ok output⟩

/-- A world in which every subprocess fails with `err`, having written `stdout`. -/
def failingWorld (stdout : List UInt8) (err : GoError) : World :=
  ⟨fun _ => (stdout, some err), fun _ => .ok ⟨[]⟩⟩

/-- The label the specification assigns to non-zero dimensions: the exact quotient
`width / height` compared, in exact arithmetic, with `16/9` and `9/16` at tolerance
`0.1`, the 16:9 window first. -/
def exactLabel (width height : Int) : String :=
  if |(width : ℚ) / height - 16 / 9| < 1 / 10 then "16:9"
  else if |(width : ℚ) / height - 9 / 16| < 1 / 10 then "9:16"
  else "other"

/-- The exact quotient keeps a distance of `10^-14` from the four end points of the two
tolerance windows. -/
def ClearOfBoundaries (width height : Int) : Prop :=
  1 / 10 ^ 14 ≤ |(|(width : ℚ) / height - 16 / 9| - 1 / 10)| ∧
    1 / 10 ^ 14 ≤ |(|(width : ℚ) / height - 9 / 16| - 1 / 10)|

/-- The error of line 42, recognised by its message; it wraps no cause. -/
def isInvalidDimensionsError (e : GoError) : Prop :=
  e.Unwrap = none ∧ "invalid dimensions in video file: ".data <+: e.Error.data

/-- The error of line 35. -/
def isNoStreamsError (e : GoError) : Prop := e = errNoStreams

/-- The classification of lines 45-58 with the two tests in the other order:
the 9:16 test first. -/
def classifyPortraitFirst (width height : Int) : String :=
  if isPortrait (ratioOf width height) then "9:16"
  else if isLandscape (ratioOf width height) then "16:9"
  else "other"

/-- Lines 34-58 with the two tests in the other order. -/
def aspectRatioOfOutputPortraitFirst (output : ffprobeOutput) : Outcome :=
  if output.Streams.length = 0 then .ret "" (some errNoStreams)
  else
    match output.Streams[0]? with
    | none => .panic "index out of range [0]"
    | some s =>
      if s.Width = 0 ∨ s.Height = 0 then .ret "" (some (errInvalidDimensions s.Width s.Height))
      else .ret (classifyPortraitFirst s.Width s.Height) none

/-- The function `getVideoAspectRatio` with the 9:16 test evaluated before the 16:9 test. -/
def getVideoAspectRatioPortraitFirst (W : World) (filePath : String) : Outcome :=
  match W.run (ffprobeCmd filePath) with
  | (_, some err) => .ret "" (some (errorfWrap "failed to run ffprobe" err))
  | (stdout, none) =>
    match W.unmarshal stdout with
    | .error err => .ret "" (some (errorfWrap "failed to parse ffprobe output" err))
    | .ok output => aspectRatioOfOutputPortraitFirst output

/-- The error of line 26: the cause wrapped under the message of the failed probe run. -/
def isProbeExecutionError (e : GoError) : Prop :=
  ∃ cause, e = errorfWrap "failed to run ffprobe" cause

/-- The error of line 31: the cause wrapped under the message of the failed parse. -/
def isProbeOutputParseError (e : GoError) : Prop :=
  ∃ cause, e = errorfWrap "failed to parse ffprobe output" cause

/-- The error of line 66. -/
def isTranscodeExecutionError (e : GoError) : Prop :=
  ∃ cause, e = errorfWrap "failed to process video for fast start" cause

/-- A world in which exactly the subprocess `c` fails, with `err`; every other subprocess
succeeds with empty output, and the parse yields `output`. -/
def failsOn (c : Cmd) (err : GoError) (output : ffprobeOutput) : World :=
  ⟨fun c0 => if c0 = c then ([], some err) else ([], none), fun _ => .ok output⟩

/-! ## The parser: `json.Unmarshal` into an `ffprobeOutput`

`json.Unmarshal` belongs to Go's standard library (`encoding/json`), not to the
repository.  Its decoding of a scanned JSON value into the struct of lines 11-16 is
embedded here as the decoder performs it: members in document order, absent members
leaving their field untouched, `null` leaving an `int` or a struct untouched, and an array
decoded into the elements the slice already stores.  The scanner (bytes to JSON value, or a
syntax error) and the error values stay parameters. -/

/-- A JSON value as scanned: the members of an object in document order, their keys
unquoted; a number as its literal. -/
inductive JSON where
  | null
  | bool (b : Bool)
  | number (literal : String)
  | string (s : String)
  | array (elems : List JSON)
  | object (members : List (String × JSON))

/-- Case folding of one character of an object key, as far as it can meet an ASCII letter:
upper-case ASCII letters, the long s (U+017F) and the Kelvin sign (U+212A). -/
def foldRune (c : Char) : Char :=
  if c.toNat = 0x17F then 's' else if c.toNat = 0x212A then 'k' else c.toLower

/-- An object key designates the struct field tagged `name` (a lower-case ASCII name):
the match is case-insensitive. -/
def keyMatches (key name : String) : Bool :=
  decide (key.data.map foldRune = name.data)

/-- Value of a string of decimal digits. -/
def digitsToNat (ds : List Char) : Nat :=
  ds.foldl (fun a c => 10 * a + (c.toNat - 48)) 0

/-- The conversion `strconv.ParseInt(literal, 10, 64)`: an optional sign and decimal
digits, within the range of a 64-bit integer. -/
def parseInt (literal : String) : Option Int :=
  let signed : Bool × List Char :=
    match literal.data with
    | '-' :: ds => (true, ds)
    | '+' :: ds => (false, ds)
    | ds => (false, ds)
  if signed.2 = [] then none
  else if signed.2.all Char.isDigit then
    let v : Int := if signed.1 then -(digitsToNat signed.2 : Int) else (digitsToNat signed.2 : Int)
    if -(2 : Int) ^ 63 ≤ v ∧ v < (2 : Int) ^ 63 then some v else none
  else none

/-- Decoding into a field of type `int` holding `cur`: `null` leaves it, a number must be
an integer literal in range, anything else is a type error (`none`). -/
def decodeInt (v : JSON) (cur : Int) : Option Int :=
  match v with
  | .null => some cur
  | .number literal => parseInt literal
  | _ => none

/-- Decoding the members of an object into a stream: `width` and `height` are decoded,
every other key is skipped. -/
def decodeStreamMembers : List (String × JSON) → ProbeStream → Option ProbeStream
  | [], st => some st
  | m :: ms, st =>
    if keyMatches m.1 "width" then
      match decodeInt m.2 st.Width with
      | none => none
      | some w => decodeStreamMembers ms ⟨w, st.Height⟩
    else if keyMatches m.1 "height" then
      match decodeInt m.2 st.Height with
      | none => none
      | some h => decodeStreamMembers ms ⟨st.Width, h⟩
    else decodeStreamMembers ms st

/-- Decoding into one element of `Streams`, a struct holding `cur`. -/
def decodeStream (v : JSON) (cur : ProbeStream) : Option ProbeStream :=
  match v with
  | .null => some cur
  | .object members => decodeStreamMembers members cur
  | _ => none

/-- The slice `Streams` while it is being decoded: `backing` holds the elements stored in
its array, those beyond the length included (elements never stored are zero), and `len` is
its length. -/
structure SliceState where
  backing : List ProbeStream
  len : Nat
deriving DecidableEq, Repr

/-- The elements of the slice: the first `len` stored ones. -/
def SliceState.elems (st : SliceState) : List ProbeStream := st.backing.take st.len

/-- Decoding the elements of an array into the stored elements `backing`: element `i` is
decoded into the element already stored at index `i` (a zero element if there is none),
which keeps the fields the JSON object does not mention; stored elements beyond the array
stay where they are. -/
def decodeElems : List JSON → List ProbeStream → Option (List ProbeStream)
  | [], backing => some backing
  | e :: es, backing =>
    match decodeStream e (backing.headD ⟨0, 0⟩) with
    | none => none
    | some st =>
      match decodeElems es backing.tail with
      | none => none
      | some sts => some (st :: sts)

/-- Decoding into the field `Streams` holding `cur`: `null` sets the nil slice, the empty
array sets a new empty slice, a non-empty array is decoded element by element into the
stored elements and sets the length to the number of its elements; anything else is a type
error. -/
def decodeStreams (v : JSON) (cur : SliceState) : Option SliceState :=
  match v with
  | .null => some ⟨[], 0⟩
  | .array elems =>
    if elems.isEmpty then some ⟨[], 0⟩
    else
      match decodeElems elems cur.backing with
      | none => none
      | some backing => some ⟨backing, elems.length⟩
  | _ => none

/-- Decoding the members of the top-level object, in document order, into the field
`Streams` holding `cur`: each `streams` member is decoded into the slice as the previous
members left it, every other key is skipped. -/
def decodeOutputMembers : List (String × JSON) → SliceState → Option SliceState
  | [], cur => some cur
  | m :: ms, cur =>
    if keyMatches m.1 "streams" then
      match decodeStreams m.2 cur with
      | none => none
      | some st => decodeOutputMembers ms st
    else decodeOutputMembers ms cur

/-- Decoding a JSON value into the zero `ffprobeOutput` of line 29; `none` stands for an
`UnmarshalTypeError`. -/
def decodeOutput (v : JSON) : Option ffprobeOutput :=
  match v with
  | .null => some ⟨[]⟩
  | .object members =>
    match decodeOutputMembers members ⟨[], 0⟩ with
    | none => none
    | some st => some ⟨st.elems⟩
  | _ => none

/-- The call `json.Unmarshal(data, &output)` of line 30: `scan` is the scanner (`none` for
a syntax error) and `errOf` the error value returned for an input that fails. -/
def jsonUnmarshal (scan : List UInt8 → Option JSON) (errOf : List UInt8 → GoError)
    (data : List UInt8) : Except GoError ffprobeOutput :=
  match scan data with
  | none => .error (errOf data)
  | some doc =>
    match decodeOutput doc with
    | none => .error (errOf data)
    | some out => .ok out

/-- A world in which the probe succeeds and its output scans as `doc` (`none`: it is not
JSON); `err` is the error of a failing `json.Unmarshal`. -/
def jsonWorld (doc : Option JSON) (err : GoError) : World :=
  ⟨fun _ => ([], none), jsonUnmarshal (fun _ => doc) (fun _ => err)⟩

/-- A value that an `int` field rejects: anything but `null` and an integer literal in
range. -/
def intMismatch : JSON → Bool
  | .null => false
  | .number literal => (parseInt literal).isNone
  | _ => true

/-- A value that an element of `Streams` rejects: not an object (nor `null`), or an object
with a `width` or `height` member of the wrong type. -/
def streamMismatch : JSON → Bool
  | .null => false
  | .object members =>
    members.any fun m => (keyMatches m.1 "width" || keyMatches m.1 "height") && intMismatch m.2
  | _ => true

/-- A value that the field `Streams` rejects: not an array (nor `null`), or an array with
an element of the wrong type. -/
def streamsMismatch : JSON → Bool
  | .null => false
  | .array elems => elems.any streamMismatch
  | _ => true

/-- A document that `ffprobeOutput` rejects: not an object (nor `null`), or an object with
a `streams` member of the wrong type.  Absent members are not a mismatch. -/
def shapeMismatch : JSON → Bool
  | .null => false
  | .object members => members.any fun m => keyMatches m.1 "streams" && streamsMismatch m.2
  | _ => true

/-- The document with one stream whose width is the string "1920". -/
def docWidthString : JSON :=
  .object [("streams", .array [.object [("width", .string "1920"), ("height", .number "1080")]])]

/-- The document with one stream whose width is the number `1920.5`. -/
def docWidthFraction : JSON :=
  .object [("streams",
    .array [.object [("width", .number "1920.5"), ("height", .number "1080")]])]

/-! ## Rounding: error bound and evaluation -/

namespace F64

theorem roundHalfEven_cases (q : ℚ) : roundHalfEven q = ⌊q⌋ ∨ roundHalfEven q = ⌊q⌋ + 1 := by
  unfold roundHalfEven
  split_ifs <;> simp

/-- The rounded integer is within one half of the argument. -/
theorem roundHalfEven_sub_le (q : ℚ) : |(roundHalfEven q : ℚ) - q| ≤ 1 / 2 := by
  have h1 : (⌊q⌋ : ℚ) ≤ q := Int.floor_le q
  have h2 : q < ⌊q⌋ + 1 := Int.lt_floor_add_one q
  unfold roundHalfEven
  split_ifs with ha hb hc
  · rw [abs_le]; constructor <;> linarith
  · rw [abs_le]; push_cast; constructor <;> linarith
  · rw [abs_le]; constructor <;> linarith
  · rw [abs_le]; push_cast; constructor <;> linarith

/-- An argument strictly within one half of an integer rounds to it. -/
theorem roundHalfEven_eq_of_lt (q : ℚ) (n : ℤ) (h : |q - n| < 1 / 2) : roundHalfEven q = n := by
  rw [abs_lt] at h
  obtain ⟨h1, h2⟩ := h
  have hq := roundHalfEven_sub_le q
  rw [abs_le] at hq
  obtain ⟨h3, h4⟩ := hq
  have h5 : ((roundHalfEven q : ℤ) : ℚ) < (n : ℚ) + 1 := by linarith
  have h6 : (n : ℚ) - 1 < ((roundHalfEven q : ℤ) : ℚ) := by linarith
  have h7 : roundHalfEven q < n + 1 := by exact_mod_cast h5
  have h8 : n - 1 < roundHalfEven q := by exact_mod_cast h6
  omega

/-- Rounding leaves an integer unchanged. -/
theorem roundHalfEven_intCast (n : ℤ) : roundHalfEven (n : ℚ) = n :=
  roundHalfEven_eq_of_lt _ n (by simp)

/-- A tie goes to the even neighbour. -/
theorem roundHalfEven_tie (n : ℤ) :
    roundHalfEven ((n : ℚ) + 1 / 2) = if n % 2 = 0 then n else n + 1 := by
  have hf : ⌊(n : ℚ) + 1 / 2⌋ = n := by
    rw [Int.floor_eq_iff]; constructor <;> linarith
  unfold roundHalfEven
  rw [hf]
  have h0 : ¬ ((n : ℚ) + 1 / 2 - (n : ℚ) < 1 / 2) := by
    have : (n : ℚ) + 1 / 2 - (n : ℚ) = 1 / 2 := by ring
    rw [this]; exact lt_irrefl _
  have h1 : ¬ ((1 : ℚ) / 2 < (n : ℚ) + 1 / 2 - (n : ℚ)) := by
    have : (n : ℚ) + 1 / 2 - (n : ℚ) = 1 / 2 := by ring
    rw [this]; exact lt_irrefl _
  rw [if_neg h0, if_neg h1]

/-- Rounding to the nearest integer is monotone. -/
theorem roundHalfEven_mono {p q : ℚ} (h : p ≤ q) : roundHalfEven p ≤ roundHalfEven q := by
  have hfl : ⌊p⌋ ≤ ⌊q⌋ := Int.floor_mono h
  rcases lt_or_eq_of_le hfl with hlt | heq
  · rcases roundHalfEven_cases p with hp | hp <;> rcases roundHalfEven_cases q with hq | hq <;>
      omega
  · unfold roundHalfEven
    rw [heq]
    have hpq : p - ⌊q⌋ ≤ q - ⌊q⌋ := by linarith
    split_ifs <;> first | omega | (exfalso; linarith)

theorem ulp_pos (x : ℚ) : 0 < ulp x := by
  unfold ulp; positivity

/-- The exponent brackets a non-zero argument between consecutive powers of two. -/
theorem exponent_spec {x : ℚ} (hx : x ≠ 0) :
    (2 : ℚ) ^ exponent x ≤ |x| ∧ |x| < (2 : ℚ) ^ (exponent x + 1) := by
  have hpos : 0 < |x| := abs_pos.mpr hx
  constructor
  · have := Int.zpow_log_le_self (b := 2) (r := |x|) (by norm_num) hpos
    simpa [exponent] using this
  · have := Int.lt_zpow_succ_log_self (b := 2) (by norm_num) |x|
    simpa [exponent] using this

/-- The exponent is determined by the bracket. -/
theorem exponent_eq_of_bounds {x : ℚ} (e : ℤ) (h1 : (2 : ℚ) ^ e ≤ |x|)
    (h2 : |x| < (2 : ℚ) ^ (e + 1)) : exponent x = e := by
  have hpos : 0 < |x| := lt_of_lt_of_le (by positivity) h1
  have ha : e ≤ Int.log 2 |x| := by
    rw [← Int.zpow_le_iff_le_log (by norm_num) hpos]; simpa using h1
  have hb : Int.log 2 |x| < e + 1 := by
    rw [← Int.lt_zpow_iff_log_lt (by norm_num) hpos]; simpa using h2
  unfold exponent; omega

theorem round_zero : round 0 = 0 := by simp [round]

/-- Rounding a non-zero argument whose binade is known. -/
theorem round_eq_of_bounds {x : ℚ} (e : ℤ) (h1 : (2 : ℚ) ^ e ≤ |x|)
    (h2 : |x| < (2 : ℚ) ^ (e + 1)) :
    round x = (roundHalfEven (x / (2 : ℚ) ^ (e - 52)) : ℚ) * (2 : ℚ) ^ (e - 52) := by
  have hx : x ≠ 0 := by
    intro h0
    rw [h0, abs_zero] at h1
    exact absurd h1 (not_le.mpr (by positivity))
  unfold round ulp
  rw [if_neg hx, exponent_eq_of_bounds e h1 h2]

/-- Relative error of one rounding: at most `2^-53`. -/
theorem round_sub_le (x : ℚ) : |round x - x| ≤ |x| / 2 ^ 53 := by
  by_cases hx : x = 0
  · subst hx; simp [round_zero]
  · obtain ⟨hlo, -⟩ := exponent_spec hx
    have hu : 0 < ulp x := ulp_pos x
    have hr : round x - x = ((roundHalfEven (x / ulp x) : ℚ) - x / ulp x) * ulp x := by
      unfold round
      rw [if_neg hx]
      field_simp
    have hq := roundHalfEven_sub_le (x / ulp x)
    have hulp : ulp x = (2 : ℚ) ^ exponent x / 2 ^ 52 := by
      unfold ulp
      rw [zpow_sub₀ (by norm_num : (2 : ℚ) ≠ 0)]
      norm_num
    rw [hr, abs_mul, abs_of_pos hu]
    calc |(roundHalfEven (x / ulp x) : ℚ) - x / ulp x| * ulp x
        ≤ 1 / 2 * ulp x := mul_le_mul_of_nonneg_right hq hu.le
      _ = (2 : ℚ) ^ exponent x / 2 ^ 53 := by rw [hulp]; ring
      _ ≤ |x| / 2 ^ 53 := by
          apply div_le_div_of_nonneg_right hlo; positivity

theorem roundHalfEven_neg (q : ℚ) : roundHalfEven (-q) = -roundHalfEven q := by
  have hq := roundHalfEven_sub_le q
  rcases lt_or_eq_of_le hq with hlt | heq
  · apply roundHalfEven_eq_of_lt
    have : -q - ((-roundHalfEven q : ℤ) : ℚ) = (roundHalfEven q : ℚ) - q := by push_cast; ring
    rw [this]; exact hlt
  · have h1 : (⌊q⌋ : ℚ) ≤ q := Int.floor_le q
    have h2 : q < ⌊q⌋ + 1 := Int.lt_floor_add_one q
    have hqm : q = (⌊q⌋ : ℚ) + 1 / 2 := by
      rcases roundHalfEven_cases q with hc | hc
      · rw [hc] at heq
        rw [abs_sub_comm, abs_of_nonneg (by linarith)] at heq
        linarith
      · rw [hc] at heq
        push_cast at heq
        rw [abs_of_nonneg (by linarith)] at heq
        linarith
    have hneg : -q = ((-⌊q⌋ - 1 : ℤ) : ℚ) + 1 / 2 := by
      push_cast; linarith
    have e1 := roundHalfEven_tie ⌊q⌋
    rw [← hqm] at e1
    rw [hneg, roundHalfEven_tie, e1]
    split_ifs <;> omega

theorem exponent_neg (x : ℚ) : exponent (-x) = exponent x := by
  unfold exponent; rw [abs_neg]

/-- Rounding commutes with negation. -/
theorem round_neg (x : ℚ) : round (-x) = -round x := by
  by_cases hx : x = 0
  · subst hx; simp [round_zero]
  · have hnx : -x ≠ 0 := neg_ne_zero.mpr hx
    unfold round ulp
    rw [if_neg hx, if_neg hnx, exponent_neg, neg_div, roundHalfEven_neg]
    push_cast; ring

/-- An argument that is a whole number of units in the last place is not changed. -/
theorem round_eq_self_of_int {x : ℚ} (n : ℤ) (h : x = (n : ℚ) * ulp x) : round x = x := by
  by_cases hx : x = 0
  · subst hx; exact round_zero
  · have hu : ulp x ≠ 0 := (ulp_pos x).ne.symm
    have hd : x / ulp x = (n : ℚ) := by
      exact (div_eq_iff hu).mpr h
    unfold round
    rw [if_neg hx, hd, roundHalfEven_intCast]
    exact h.symm

/-- A positive argument rounds into the closure of its own binade. -/
theorem round_pos_bounds {x : ℚ} (hx : 0 < x) :
    (2 : ℚ) ^ exponent x ≤ round x ∧ round x ≤ (2 : ℚ) ^ (exponent x + 1) := by
  obtain ⟨hlo, hhi⟩ := exponent_spec hx.ne.symm
  rw [abs_of_pos hx] at hlo hhi
  have hu : 0 < ulp x := ulp_pos x
  have hulp : ulp x = (2 : ℚ) ^ exponent x / 2 ^ 52 := by
    unfold ulp
    rw [zpow_sub₀ (by norm_num : (2 : ℚ) ≠ 0)]
    norm_num
  have hup : (2 : ℚ) ^ (exponent x + 1) = 2 ^ exponent x * 2 := by
    rw [zpow_add₀ (by norm_num : (2 : ℚ) ≠ 0)]; norm_num
  have hp : (0 : ℚ) < 2 ^ exponent x := by positivity
  have hq1 : (((2 : ℤ) ^ 52 : ℤ) : ℚ) ≤ x / ulp x := by
    rw [le_div_iff₀ hu, hulp]
    have : (((2 : ℤ) ^ 52 : ℤ) : ℚ) * (2 ^ exponent x / 2 ^ 52) = 2 ^ exponent x := by
      push_cast; field_simp; ring
    rw [this]; exact hlo
  have hq2 : x / ulp x ≤ (((2 : ℤ) ^ 53 : ℤ) : ℚ) := by
    rw [div_le_iff₀ hu, hulp]
    have : (((2 : ℤ) ^ 53 : ℤ) : ℚ) * (2 ^ exponent x / 2 ^ 52) = 2 ^ exponent x * 2 := by
      push_cast; field_simp; ring
    rw [this, ← hup]; exact hhi.le
  have m1 := roundHalfEven_mono hq1
  have m2 := roundHalfEven_mono hq2
  rw [roundHalfEven_intCast] at m1 m2
  have m1q : ((2 : ℚ) ^ 52) ≤ (roundHalfEven (x / ulp x) : ℚ) := by exact_mod_cast m1
  have m2q : (roundHalfEven (x / ulp x) : ℚ) ≤ ((2 : ℚ) ^ 53) := by exact_mod_cast m2
  unfold round
  rw [if_neg hx.ne.symm]
  constructor
  · calc (2 : ℚ) ^ exponent x = 2 ^ 52 * ulp x := by rw [hulp]; field_simp
      _ ≤ (roundHalfEven (x / ulp x) : ℚ) * ulp x := mul_le_mul_of_nonneg_right m1q hu.le
  · calc (roundHalfEven (x / ulp x) : ℚ) * ulp x ≤ 2 ^ 53 * ulp x :=
          mul_le_mul_of_nonneg_right m2q hu.le
      _ = (2 : ℚ) ^ (exponent x + 1) := by rw [hup, hulp]; field_simp; ring

theorem round_pos {x : ℚ} (hx : 0 < x) : 0 < round x :=
  lt_of_lt_of_le (by positivity) (round_pos_bounds hx).1

theorem round_mono_pos {x y : ℚ} (hx : 0 < x) (h : x ≤ y) : round x ≤ round y := by
  have hy : 0 < y := lt_of_lt_of_le hx h
  have he : exponent x ≤ exponent y := by
    unfold exponent
    rw [abs_of_pos hx, abs_of_pos hy]
    exact Int.log_mono_right hx h
  rcases lt_or_eq_of_le he with hlt | heq
  · have h1 := (round_pos_bounds hx).2
    have h2 := (round_pos_bounds hy).1
    have h3 : (2 : ℚ) ^ (exponent x + 1) ≤ 2 ^ exponent y :=
      zpow_le_zpow_right₀ (by norm_num) (by omega)
    linarith
  · have hu : ulp x = ulp y := by unfold ulp; rw [heq]
    have hup : 0 < ulp y := ulp_pos y
    unfold round
    rw [if_neg hx.ne.symm, if_neg hy.ne.symm, hu]
    apply mul_le_mul_of_nonneg_right _ hup.le
    have : x / ulp y ≤ y / ulp y := div_le_div_of_nonneg_right h hup.le
    exact_mod_cast roundHalfEven_mono this

/-- Rounding is monotone. -/
theorem round_mono {x y : ℚ} (h : x ≤ y) : round x ≤ round y := by
  rcases lt_trichotomy x 0 with hx | hx | hx
  · rcases lt_trichotomy y 0 with hy | hy | hy
    · have := round_mono_pos (neg_pos.mpr hy) (neg_le_neg h)
      rw [round_neg, round_neg] at this
      linarith
    · subst hy
      have := round_pos (neg_pos.mpr hx)
      rw [round_neg] at this
      rw [round_zero]; linarith
    · have h1 := round_pos (neg_pos.mpr hx)
      rw [round_neg] at h1
      have h2 := round_pos hy
      linarith
  · subst hx
    rcases lt_or_eq_of_le h with hy | hy
    · rw [round_zero]; exact (round_pos hy).le
    · rw [← hy]
  · exact round_mono_pos hx h

/-- Evaluation of a rounding away from a tie: binade `e`, nearest integer multiple `n`. -/
theorem round_eval {x : ℚ} (e n : ℤ) (h1 : (2 : ℚ) ^ e ≤ |x|) (h2 : |x| < (2 : ℚ) ^ (e + 1))
    (h3 : |x / (2 : ℚ) ^ (e - 52) - n| < 1 / 2) : round x = (n : ℚ) * (2 : ℚ) ^ (e - 52) := by
  rw [round_eq_of_bounds e h1 h2, roundHalfEven_eq_of_lt _ n h3]

/-- Evaluation of a rounding at a tie. -/
theorem round_eval_tie {x : ℚ} (e n : ℤ) (h1 : (2 : ℚ) ^ e ≤ |x|)
    (h2 : |x| < (2 : ℚ) ^ (e + 1)) (h3 : x / (2 : ℚ) ^ (e - 52) = (n : ℚ) + 1 / 2) :
    round x = ((if n % 2 = 0 then n else n + 1 : ℤ) : ℚ) * (2 : ℚ) ^ (e - 52) := by
  rw [round_eq_of_bounds e h1 h2, h3, roundHalfEven_tie]

theorem c16_9_eq : c16_9 = 2001599834386887 / 1125899906842624 := by
  unfold c16_9
  rw [round_eval 0 8006399337547548 (by norm_num [abs_of_pos]) (by norm_num [abs_of_pos])
    (by norm_num [abs_lt])]
  norm_num

theorem c9_16_eq : c9_16 = 9 / 16 := by
  unfold c9_16
  rw [round_eval (-1) 5066549580791808 (by norm_num [abs_of_pos]) (by norm_num [abs_of_pos])
    (by norm_num [abs_lt])]
  norm_num

theorem c0_1_eq : c0_1 = 3602879701896397 / 36028797018963968 := by
  unfold c0_1
  rw [round_eval (-4) 7205759403792794 (by norm_num [abs_of_pos]) (by norm_num [abs_of_pos])
    (by norm_num [abs_lt])]
  norm_num

/-- Magnitude of a rounded value, from the relative error bound. -/
theorem abs_round_le (x : ℚ) : |round x| ≤ |x| + |x| / 2 ^ 53 := by
  have h := round_sub_le x
  have h2 : |round x| ≤ |round x - x| + |x| := by
    have := abs_add (round x - x) x
    simpa using this
  linarith

theorem abs_round_ge (x : ℚ) : |x| - |x| / 2 ^ 53 ≤ |round x| := by
  have h := round_sub_le x
  have h2 : |x| ≤ |round x - x| + |round x| := by
    have := abs_add (x - round x) (round x)
    rw [abs_sub_comm] at this
    simpa using this
  linarith

/-- Error of a quotient of two approximations, each with relative error `2^-53`. -/
theorem div_err (w h fw fh : ℚ) (hne : h ≠ 0) (hw : |fw - w| ≤ |w| / 2 ^ 53)
    (hh : |fh - h| ≤ |h| / 2 ^ 53) : |fw / fh - w / h| ≤ |w / h| / 2 ^ 51 := by
  have hH : 0 < |h| := abs_pos.mpr hne
  have hW : 0 ≤ |w| := abs_nonneg w
  have hF : |h| - |h| / 2 ^ 53 ≤ |fh| := by
    have := abs_add (h - fh) fh
    rw [abs_sub_comm] at this
    have e : h - fh + fh = h := by ring
    rw [e] at this
    linarith
  have hFpos : 0 < |fh| := by
    have hlt : |h| / 2 ^ 53 < |h| := by
      rw [div_lt_iff₀ (by positivity)]; linarith
    linarith
  have hfne : fh ≠ 0 := abs_pos.mp hFpos
  have hrew : fw / fh - w / h = ((fw - w) * h - w * (fh - h)) / (fh * h) := by
    field_simp; ring
  have hnum : |(fw - w) * h - w * (fh - h)| ≤ |w| * |h| / 2 ^ 52 := by
    have t := abs_sub ((fw - w) * h) (w * (fh - h))
    rw [abs_mul, abs_mul] at t
    have a1 : |fw - w| * |h| ≤ |w| / 2 ^ 53 * |h| := mul_le_mul_of_nonneg_right hw hH.le
    have a2 : |w| * |fh - h| ≤ |w| * (|h| / 2 ^ 53) := mul_le_mul_of_nonneg_left hh hW
    have e : |w| / 2 ^ 53 * |h| + |w| * (|h| / 2 ^ 53) = |w| * |h| / 2 ^ 52 := by ring
    linarith
  have hden : (|h| - |h| / 2 ^ 53) * |h| ≤ |fh * h| := by
    rw [abs_mul]; exact mul_le_mul_of_nonneg_right hF hH.le
  have hdpos : 0 < |fh * h| := by rw [abs_mul]; positivity
  rw [hrew, abs_div, abs_div, div_div, div_le_div_iff₀ hdpos (by positivity)]
  have k1 : |(fw - w) * h - w * (fh - h)| * (|h| * 2 ^ 51) ≤
      |w| * |h| / 2 ^ 52 * (|h| * 2 ^ 51) :=
    mul_le_mul_of_nonneg_right hnum (by positivity)
  have k2 : |w| * ((|h| - |h| / 2 ^ 53) * |h|) ≤ |w| * |fh * h| :=
    mul_le_mul_of_nonneg_left hden hW
  have k3 : |w| * |h| / 2 ^ 52 * (|h| * 2 ^ 51) ≤ |w| * ((|h| - |h| / 2 ^ 53) * |h|) := by
    have hp : 0 ≤ |w| * (|h| * |h|) := by positivity
    have e1 : |w| * |h| / 2 ^ 52 * (|h| * 2 ^ 51) = |w| * (|h| * |h|) / 2 := by ring
    have e2 : |w| * ((|h| - |h| / 2 ^ 53) * |h|) = |w| * (|h| * |h|) * (1 - 1 / 2 ^ 53) := by
      ring
    rw [e1, e2]
    nlinarith
  linarith

end F64

/-- The computed ratio is within relative error `2^-50` of the exact quotient. -/
theorem ratioOf_err (w h : ℤ) (hh : h ≠ 0) :
    |ratioOf w h - (w : ℚ) / h| ≤ |(w : ℚ) / h| / 2 ^ 50 := by
  have hq : ((h : ℤ) : ℚ) ≠ 0 := by exact_mod_cast hh
  have e1 := F64.div_err (w : ℚ) (h : ℚ) (F64.ofInt w) (F64.ofInt h) hq
    (F64.round_sub_le _) (F64.round_sub_le _)
  have e2 := F64.round_sub_le (F64.ofInt w / F64.ofInt h)
  have e3 : |F64.ofInt w / F64.ofInt h| ≤
      |F64.ofInt w / F64.ofInt h - (w : ℚ) / h| + |(w : ℚ) / h| := by
    have := abs_add (F64.ofInt w / F64.ofInt h - (w : ℚ) / h) ((w : ℚ) / h)
    simpa using this
  have e4 : |ratioOf w h - (w : ℚ) / h| ≤
      |ratioOf w h - F64.ofInt w / F64.ofInt h| + |F64.ofInt w / F64.ofInt h - (w : ℚ) / h| := by
    have := abs_add (ratioOf w h - F64.ofInt w / F64.ofInt h)
      (F64.ofInt w / F64.ofInt h - (w : ℚ) / h)
    simpa using this
  have e5 : 0 ≤ |(w : ℚ) / h| := abs_nonneg _
  unfold ratioOf F64.div at *
  linarith

/-- For non-zero 64-bit dimensions the computed ratio stays far inside the range of
normal binary64 numbers. -/
theorem ratioOf_range (w h : ℤ) (hw : w ≠ 0) (hh : h ≠ 0) (hw63 : |w| ≤ 2 ^ 63)
    (hh63 : |h| ≤ 2 ^ 63) :
    1 / 2 ^ 64 ≤ |ratioOf w h| ∧ |ratioOf w h| ≤ 2 ^ 64 := by
  have e := ratioOf_err w h hh
  have a1 : (1 : ℚ) ≤ |(w : ℚ)| := by
    have : ((1 : ℤ) : ℚ) ≤ ((|w| : ℤ) : ℚ) := by exact_mod_cast Int.one_le_abs hw
    rw [Int.cast_abs] at this
    simpa using this
  have a2 : (1 : ℚ) ≤ |(h : ℚ)| := by
    have : ((1 : ℤ) : ℚ) ≤ ((|h| : ℤ) : ℚ) := by exact_mod_cast Int.one_le_abs hh
    rw [Int.cast_abs] at this
    simpa using this
  have b1 : |(w : ℚ)| ≤ 2 ^ 63 := by
    have : ((|w| : ℤ) : ℚ) ≤ ((2 ^ 63 : ℤ) : ℚ) := by exact_mod_cast hw63
    rw [Int.cast_abs] at this
    simpa using this
  have b2 : |(h : ℚ)| ≤ 2 ^ 63 := by
    have : ((|h| : ℤ) : ℚ) ≤ ((2 ^ 63 : ℤ) : ℚ) := by exact_mod_cast hh63
    rw [Int.cast_abs] at this
    simpa using this
  have hpos : (0 : ℚ) < |(h : ℚ)| := by linarith
  have r1 : 1 / 2 ^ 63 ≤ |(w : ℚ) / h| := by
    rw [abs_div, div_le_div_iff₀ (by positivity) hpos]
    linarith
  have r2 : |(w : ℚ) / h| ≤ 2 ^ 63 := by
    rw [abs_div, div_le_iff₀ hpos]
    nlinarith
  have t1 : |ratioOf w h| ≤ |ratioOf w h - (w : ℚ) / h| + |(w : ℚ) / h| := by
    have := abs_add (ratioOf w h - (w : ℚ) / h) ((w : ℚ) / h)
    simpa using this
  have t2 : |(w : ℚ) / h| ≤ |ratioOf w h - (w : ℚ) / h| + |ratioOf w h| := by
    have := abs_add ((w : ℚ) / h - ratioOf w h) (ratioOf w h)
    rw [abs_sub_comm] at this
    simpa using this
  constructor
  · norm_num at r1 ⊢; linarith
  · norm_num at r2 ⊢; linarith

/-- Inside a tolerance window by a margin of `10^-14`: the test of the window succeeds.
`C` is the exact centre, `c` its `float64` constant, `r` the exact ratio and `ρ` the
computed one. -/
theorem window_inside (r ρ C c : ℚ) (hC : |C| ≤ 2) (hc : |c - C| ≤ 1 / 2 ^ 52)
    (hρ : |ρ - r| ≤ |r| / 2 ^ 50) (hr : |r - C| ≤ 1 / 10 - 1 / 10 ^ 14) :
    F64.abs (F64.sub ρ c) < F64.c0_1 := by
  unfold F64.abs F64.sub
  rw [F64.c0_1_eq]
  have h1 := F64.abs_round_le (ρ - c)
  have h2 : |ρ - c| ≤ |ρ - r| + |r - C| + |c - C| := by
    have a := abs_add (ρ - r) (r - c)
    have b := abs_add (r - C) (C - c)
    have e1 : ρ - r + (r - c) = ρ - c := by ring
    have e2 : r - C + (C - c) = r - c := by ring
    rw [e1] at a
    rw [e2, abs_sub_comm C c] at b
    linarith
  have h3 : |r| ≤ |r - C| + |C| := by
    have := abs_add (r - C) C
    simpa using this
  have h4 : 0 ≤ |ρ - c| := abs_nonneg _
  have h5 : 0 ≤ |r| := abs_nonneg _
  linarith

/-- Outside a tolerance window by a margin of `10^-14`: the test of the window fails. -/
theorem window_outside (r ρ C c : ℚ) (hC : |C| ≤ 2) (hc : |c - C| ≤ 1 / 2 ^ 52)
    (hρ : |ρ - r| ≤ |r| / 2 ^ 50) (hr : 1 / 10 + 1 / 10 ^ 14 ≤ |r - C|) :
    ¬ F64.abs (F64.sub ρ c) < F64.c0_1 := by
  unfold F64.abs F64.sub
  rw [F64.c0_1_eq, not_lt]
  have h1 := F64.abs_round_ge (ρ - c)
  have h2 : |r - C| ≤ |ρ - c| + |ρ - r| + |c - C| := by
    have a := abs_add (r - ρ) (ρ - C)
    have b := abs_add (ρ - c) (c - C)
    have e1 : r - ρ + (ρ - C) = r - C := by ring
    have e2 : ρ - c + (c - C) = ρ - C := by ring
    rw [e1, abs_sub_comm r ρ] at a
    rw [e2] at b
    linarith
  have h3 : |r| ≤ |r - C| + |C| := by
    have := abs_add (r - C) C
    simpa using this
  have h4 : 0 ≤ |ρ - c| := abs_nonneg _
  have h5 : 0 ≤ |r| := abs_nonneg _
  linarith

theorem c16_9_err : |F64.c16_9 - 16 / 9| ≤ 1 / 2 ^ 52 := by
  rw [F64.c16_9_eq, abs_le]; constructor <;> norm_num

theorem c9_16_err : |F64.c9_16 - 9 / 16| ≤ 1 / 2 ^ 52 := by
  rw [F64.c9_16_eq, abs_le]; constructor <;> norm_num

/-- Exact ratio inside the 16:9 window by the margin: the label is "16:9". -/
theorem classify_landscape_of_margin (w h : ℤ) (hh : h ≠ 0)
    (hr : |(w : ℚ) / h - 16 / 9| ≤ 1 / 10 - 1 / 10 ^ 14) : classify w h = "16:9" := by
  have h1 : isLandscape (ratioOf w h) :=
    window_inside _ _ (16 / 9) _ (by rw [abs_le]; constructor <;> norm_num) c16_9_err
      (ratioOf_err w h hh) hr
  unfold classify
  rw [if_pos h1]

/-- Exact ratio inside the 9:16 window by the margin: the label is "9:16". -/
theorem classify_portrait_of_margin (w h : ℤ) (hh : h ≠ 0)
    (hr : |(w : ℚ) / h - 9 / 16| ≤ 1 / 10 - 1 / 10 ^ 14) : classify w h = "9:16" := by
  have hout : 1 / 10 + 1 / 10 ^ 14 ≤ |(w : ℚ) / h - 16 / 9| := by
    rw [abs_le] at hr
    rw [le_abs]
    right
    have : (1 : ℚ) / 10 - 1 / 10 ^ 14 ≤ 1 / 10 := by norm_num
    have e : (1 : ℚ) / 10 + 1 / 10 ^ 14 ≤ 2 / 10 := by norm_num
    linarith [hr.2]
  have h1 : ¬ isLandscape (ratioOf w h) :=
    window_outside _ _ (16 / 9) _ (by rw [abs_le]; constructor <;> norm_num) c16_9_err
      (ratioOf_err w h hh) hout
  have h2 : isPortrait (ratioOf w h) :=
    window_inside _ _ (9 / 16) _ (by rw [abs_le]; constructor <;> norm_num) c9_16_err
      (ratioOf_err w h hh) hr
  unfold classify
  rw [if_neg h1, if_pos h2]

/-- Exact ratio outside both windows by the margin: the label is "other". -/
theorem classify_other_of_margin (w h : ℤ) (hh : h ≠ 0)
    (h169 : 1 / 10 + 1 / 10 ^ 14 ≤ |(w : ℚ) / h - 16 / 9|)
    (h916 : 1 / 10 + 1 / 10 ^ 14 ≤ |(w : ℚ) / h - 9 / 16|) : classify w h = "other" := by
  have h1 : ¬ isLandscape (ratioOf w h) :=
    window_outside _ _ (16 / 9) _ (by rw [abs_le]; constructor <;> norm_num) c16_9_err
      (ratioOf_err w h hh) h169
  have h2 : ¬ isPortrait (ratioOf w h) :=
    window_outside _ _ (9 / 16) _ (by rw [abs_le]; constructor <;> norm_num) c9_16_err
      (ratioOf_err w h hh) h916
  unfold classify
  rw [if_neg h1, if_neg h2]

/-- Once the probe has run and its output is parsed, only lines 34-58 remain. -/
theorem getVideoAspectRatio_of_probed (W : World) (filePath : String) (output : ffprobeOutput)
    (hp : Probed W filePath output) :
    getVideoAspectRatio W filePath = aspectRatioOfOutput output := by
  obtain ⟨stdout, hrun, hparse⟩ := hp
  unfold getVideoAspectRatio
  rw [hrun]
  simp only [hparse]

theorem probed_probeWorld (filePath : String) (output : ffprobeOutput) :
    Probed (probeWorld output) filePath output :=
  ⟨[], rfl, rfl⟩

/-- With a first stream of non-zero dimensions the label of lines 45-58 is returned. -/
theorem aspectRatioOfOutput_cons (s : ProbeStream) (rest : List ProbeStream)
    (hw : s.Width ≠ 0) (hh : s.Height ≠ 0) :
    aspectRatioOfOutput ⟨s :: rest⟩ = .ret (classify s.Width s.Height) none := by
  simp [aspectRatioOfOutput, hw, hh]

/-- Integers of magnitude at most `2^53` convert to `float64` without rounding. -/
theorem ofInt_exact (n : ℤ) (hn : |n| ≤ 2 ^ 53) : F64.ofInt n = (n : ℚ) := by
  unfold F64.ofInt
  by_cases h0 : n = 0
  · subst h0; simp [F64.round_zero]
  have hx : ((n : ℤ) : ℚ) ≠ 0 := by exact_mod_cast h0
  obtain ⟨hlo, hhi⟩ := F64.exponent_spec hx
  have habs : |((n : ℤ) : ℚ)| ≤ 2 ^ (53 : ℤ) := by
    have : ((|n| : ℤ) : ℚ) ≤ ((2 ^ 53 : ℤ) : ℚ) := by exact_mod_cast hn
    rw [Int.cast_abs] at this
    norm_num at this ⊢
    exact this
  have h1 : (1 : ℚ) ≤ |((n : ℤ) : ℚ)| := by
    have : (1 : ℤ) ≤ |n| := Int.one_le_abs h0
    have : ((1 : ℤ) : ℚ) ≤ ((|n| : ℤ) : ℚ) := by exact_mod_cast this
    rw [Int.cast_abs] at this
    simpa using this
  have he53 : F64.exponent (n : ℚ) ≤ 53 :=
    (zpow_le_zpow_iff_right₀ (by norm_num : (1 : ℚ) < 2)).mp (le_trans hlo habs)
  have he0 : 0 < F64.exponent (n : ℚ) + 1 := by
    have : (2 : ℚ) ^ (0 : ℤ) < 2 ^ (F64.exponent (n : ℚ) + 1) := by
      rw [zpow_zero]; exact lt_of_le_of_lt h1 hhi
    exact (zpow_lt_zpow_iff_right₀ (by norm_num : (1 : ℚ) < 2)).mp this
  rcases lt_or_eq_of_le he53 with hlt | heq
  · apply F64.round_eq_self_of_int (n * 2 ^ (52 - F64.exponent (n : ℚ)).toNat)
    unfold F64.ulp
    have hk : F64.exponent (n : ℚ) - 52 = -(((52 - F64.exponent (n : ℚ)).toNat : ℕ) : ℤ) := by
      rw [Int.toNat_of_nonneg (by omega)]; ring
    rw [hk, zpow_neg, zpow_natCast]
    push_cast
    field_simp
  · have hle : (2 : ℚ) ^ (53 : ℤ) ≤ |((n : ℤ) : ℚ)| := by rw [heq] at hlo; exact hlo
    have habs2 : |((n : ℤ) : ℚ)| = 2 ^ (53 : ℤ) := le_antisymm habs hle
    have hu : F64.ulp (n : ℚ) = 2 := by
      unfold F64.ulp; rw [heq]; norm_num
    rcases abs_eq (by positivity : (0 : ℚ) ≤ 2 ^ (53 : ℤ)) |>.mp habs2 with hp | hm
    · apply F64.round_eq_self_of_int (2 ^ 52)
      rw [hu, hp]; norm_num
    · apply F64.round_eq_self_of_int (-2 ^ 52)
      rw [hu, hm]; norm_num

theorem round_37_80 : F64.round (37 / 80) = 8331659310635418 / 2 ^ 54 := by
  rw [F64.round_eval (-2) 8331659310635418 (by norm_num [abs_of_pos]) (by norm_num [abs_of_pos])
    (by norm_num [abs_lt])]
  norm_num

theorem round_53_80 : F64.round (53 / 80) = 5967269506265907 / 2 ^ 53 := by
  rw [F64.round_eval (-1) 5967269506265907 (by norm_num [abs_of_pos]) (by norm_num [abs_of_pos])
    (by norm_num [abs_lt])]
  norm_num

theorem round_portrait_hi :
    F64.round (5967269506265907 / 2 ^ 53 - 9 / 16) = 7205759403792792 / 2 ^ 56 := by
  rw [F64.round_eval (-4) 7205759403792792 (by norm_num [abs_of_pos]) (by norm_num [abs_of_pos])
    (by norm_num [abs_lt])]
  norm_num

theorem round_portrait_lo :
    F64.round (8331659310635418 / 2 ^ 54 - 9 / 16) = -(7205759403792792 / 2 ^ 56) := by
  rw [F64.round_eval (-4) (-7205759403792792) (by norm_num [abs_of_neg])
    (by norm_num [abs_of_neg]) (by norm_num [abs_lt])]
  norm_num

/-- For dimensions that convert exactly, the 9:16 test agrees with the exact open window
on every ratio inside it. -/
theorem classify_portrait_exact (w h : ℤ) (hw : 0 < w) (hh : 0 < h) (hw53 : w ≤ 2 ^ 53)
    (hh53 : h ≤ 2 ^ 53) (hr : |(w : ℚ) / h - 9 / 16| < 1 / 10) : classify w h = "9:16" := by
  rw [abs_lt] at hr
  obtain ⟨hr1, hr2⟩ := hr
  have hρ : ratioOf w h = F64.round ((w : ℚ) / h) := by
    unfold ratioOf F64.div
    rw [ofInt_exact w (by rw [abs_of_pos hw]; exact hw53),
      ofInt_exact h (by rw [abs_of_pos hh]; exact hh53)]
  have hlo : (8331659310635418 : ℚ) / 2 ^ 54 ≤ ratioOf w h := by
    rw [hρ, ← round_37_80]; exact F64.round_mono (by linarith)
  have hhi : ratioOf w h ≤ (5967269506265907 : ℚ) / 2 ^ 53 := by
    rw [hρ, ← round_53_80]; exact F64.round_mono (by linarith)
  have h1 : ¬ isLandscape (ratioOf w h) := by
    unfold isLandscape F64.abs F64.sub
    rw [F64.c0_1_eq, F64.c16_9_eq, not_lt]
    have g := F64.abs_round_ge (ratioOf w h - 2001599834386887 / 1125899906842624)
    have hneg : ratioOf w h - 2001599834386887 / 1125899906842624 < -1 := by
      norm_num at hhi ⊢; linarith
    rw [abs_of_neg (by linarith)] at g
    have g2 := le_abs_self (F64.round (ratioOf w h - 2001599834386887 / 1125899906842624))
    have g3 := neg_abs_le (F64.round (ratioOf w h - 2001599834386887 / 1125899906842624))
    have g4 : (0 : ℚ) ≤ |F64.round (ratioOf w h - 2001599834386887 / 1125899906842624)| :=
      abs_nonneg _
    norm_num at g ⊢
    linarith
  have h2 : isPortrait (ratioOf w h) := by
    unfold isPortrait F64.abs F64.sub
    rw [F64.c0_1_eq, F64.c9_16_eq, abs_lt]
    have m1 : F64.round (8331659310635418 / 2 ^ 54 - 9 / 16) ≤
        F64.round (ratioOf w h - 9 / 16) := F64.round_mono (by linarith)
    have m2 : F64.round (ratioOf w h - 9 / 16) ≤
        F64.round (5967269506265907 / 2 ^ 53 - 9 / 16) := F64.round_mono (by linarith)
    rw [round_portrait_lo] at m1
    rw [round_portrait_hi] at m2
    constructor
    · norm_num at m1 ⊢; linarith
    · norm_num at m2 ⊢; linarith
  unfold classify
  rw [if_neg h1, if_pos h2]

/-! ## Evaluation at particular dimensions -/

/-- When both dimensions convert exactly, the ratio is the exact quotient rounded once. -/
theorem ratioOf_exact (w h : ℤ) (hw : |w| ≤ 2 ^ 53) (hh : |h| ≤ 2 ^ 53) :
    ratioOf w h = F64.round ((w : ℚ) / h) := by
  unfold ratioOf F64.div
  rw [ofInt_exact w hw, ofInt_exact h hh]

/-- A computed ratio of at most one fails the 16:9 test. -/
theorem not_isLandscape_of_le_one (ρ : ℚ) (h : ρ ≤ 1) : ¬ isLandscape ρ := by
  unfold isLandscape F64.abs F64.sub
  rw [F64.c0_1_eq, F64.c16_9_eq, not_lt]
  have g := F64.abs_round_ge (ρ - 2001599834386887 / 1125899906842624)
  rw [abs_of_neg (by norm_num; linarith)] at g
  norm_num at g ⊢
  linarith

/-- A computed ratio of at least one fails the 9:16 test. -/
theorem not_isPortrait_of_one_le (ρ : ℚ) (h : 1 ≤ ρ) : ¬ isPortrait ρ := by
  unfold isPortrait F64.abs F64.sub
  rw [F64.c0_1_eq, F64.c9_16_eq, not_lt]
  have g := F64.abs_round_ge (ρ - 9 / 16)
  rw [abs_of_pos (by linarith)] at g
  norm_num at g ⊢
  linarith

/-- The smallest `float64` ratio that passes the 16:9 test. -/
theorem isLandscape_lowest : isLandscape (7556039374810499 / 2 ^ 52) := by
  unfold isLandscape F64.abs F64.sub
  rw [F64.c0_1_eq, F64.c16_9_eq,
    F64.round_eval (-4) (-7205759403792784) (by norm_num [abs_of_neg])
      (by norm_num [abs_of_neg]) (by norm_num [abs_lt])]
  norm_num [abs_of_neg]

/-- The `float64` ratio just above the largest one that passes the 16:9 test. -/
theorem not_isLandscape_above : ¬ isLandscape (8456759300284598 / 2 ^ 52) := by
  unfold isLandscape F64.abs F64.sub
  rw [F64.c0_1_eq, F64.c16_9_eq,
    F64.round_eval (-4) 7205759403792800 (by norm_num [abs_of_pos])
      (by norm_num [abs_of_pos]) (by norm_num [abs_lt])]
  norm_num [abs_of_pos]

/-- The smallest `float64` ratio that passes the 9:16 test. -/
theorem isPortrait_lowest : isPortrait (8331659310635418 / 2 ^ 54) := by
  unfold isPortrait F64.abs F64.sub
  rw [F64.c0_1_eq, F64.c9_16_eq, round_portrait_lo]
  norm_num [abs_of_neg]

/-- The `float64` ratio just above the largest one that passes the 9:16 test. -/
theorem not_isPortrait_above : ¬ isPortrait (5967269506265908 / 2 ^ 53) := by
  unfold isPortrait F64.abs F64.sub
  rw [F64.c0_1_eq, F64.c9_16_eq,
    F64.round_eval (-4) 7205759403792800 (by norm_num [abs_of_pos])
      (by norm_num [abs_of_pos]) (by norm_num [abs_lt])]
  norm_num [abs_of_pos]

theorem ratioOf_151_90 : ratioOf 151 90 = 7556039374810499 / 2 ^ 52 := by
  rw [ratioOf_exact _ _ (by norm_num) (by norm_num),
    F64.round_eval 0 7556039374810499 (by norm_num [abs_of_pos]) (by norm_num [abs_of_pos])
      (by norm_num [abs_lt])]
  norm_num

theorem classify_151_90 : classify 151 90 = "16:9" := by
  unfold classify
  rw [ratioOf_151_90, if_pos isLandscape_lowest]

theorem ratioOf_37_80 : ratioOf 37 80 = 8331659310635418 / 2 ^ 54 := by
  rw [ratioOf_exact _ _ (by norm_num) (by norm_num)]
  have := round_37_80
  norm_num at this ⊢
  exact this

theorem classify_37_80 : classify 37 80 = "9:16" := by
  unfold classify
  rw [ratioOf_37_80, if_neg (not_isLandscape_of_le_one _ (by norm_num)),
    if_pos isPortrait_lowest]

theorem ratioOf_above_landscape :
    ratioOf 172586924495623 91910196476959 = 8456759300284598 / 2 ^ 52 := by
  rw [ratioOf_exact _ _ (by norm_num) (by norm_num),
    F64.round_eval 0 8456759300284598 (by norm_num [abs_of_pos]) (by norm_num [abs_of_pos])
      (by norm_num [abs_lt])]
  norm_num

theorem classify_above_landscape : classify 172586924495623 91910196476959 = "other" := by
  unfold classify
  rw [ratioOf_above_landscape, if_neg not_isLandscape_above,
    if_neg (not_isPortrait_of_one_le _ (by norm_num))]

theorem ratioOf_below_landscape :
    ratioOf 243743205639080 145277407334551 = 7556039374810499 / 2 ^ 52 := by
  rw [ratioOf_exact _ _ (by norm_num) (by norm_num),
    F64.round_eval 0 7556039374810499 (by norm_num [abs_of_pos]) (by norm_num [abs_of_pos])
      (by norm_num [abs_lt])]
  norm_num

theorem classify_below_landscape : classify 243743205639080 145277407334551 = "16:9" := by
  unfold classify
  rw [ratioOf_below_landscape, if_pos isLandscape_lowest]

/-- The odd integer `2^53 + 9` is a tie and converts to `2^53 + 8`. -/
theorem ofInt_tie : F64.ofInt 9007199254741001 = 9007199254741000 := by
  unfold F64.ofInt
  rw [F64.round_eval_tie 53 4503599627370500 (by norm_num [abs_of_pos])
    (by norm_num [abs_of_pos]) (by norm_num)]
  norm_num

theorem ratioOf_above_portrait :
    ratioOf 5967269506265913 9007199254741001 = 5967269506265908 / 2 ^ 53 := by
  unfold ratioOf F64.div
  rw [ofInt_tie, ofInt_exact _ (by norm_num),
    F64.round_eval (-1) 5967269506265908 (by norm_num [abs_of_pos]) (by norm_num [abs_of_pos])
      (by norm_num [abs_lt])]
  norm_num

theorem classify_above_portrait : classify 5967269506265913 9007199254741001 = "other" := by
  unfold classify
  rw [ratioOf_above_portrait, if_neg (not_isLandscape_of_le_one _ (by norm_num)),
    if_neg not_isPortrait_above]

/-- Away from the window end points the computed label is the exact one. -/
theorem classify_eq_exactLabel (w h : ℤ) (hh : h ≠ 0) (hc : ClearOfBoundaries w h) :
    classify w h = exactLabel w h := by
  obtain ⟨h1, h2⟩ := hc
  rw [le_abs] at h1 h2
  unfold exactLabel
  rcases h1 with h1 | h1
  · have n1 : ¬ |(w : ℚ) / h - 16 / 9| < 1 / 10 := by
      rw [not_lt]; have : (0 : ℚ) ≤ 1 / 10 ^ 14 := by norm_num
      linarith
    rw [if_neg n1]
    rcases h2 with h2 | h2
    · have n2 : ¬ |(w : ℚ) / h - 9 / 16| < 1 / 10 := by
        rw [not_lt]; have : (0 : ℚ) ≤ 1 / 10 ^ 14 := by norm_num
        linarith
      rw [if_neg n2]
      exact classify_other_of_margin w h hh (by linarith) (by linarith)
    · have p2 : |(w : ℚ) / h - 9 / 16| < 1 / 10 := by
        have : (0 : ℚ) < 1 / 10 ^ 14 := by norm_num
        linarith
      rw [if_pos p2]
      exact classify_portrait_of_margin w h hh (by linarith)
  · have p1 : |(w : ℚ) / h - 16 / 9| < 1 / 10 := by
      have : (0 : ℚ) < 1 / 10 ^ 14 := by norm_num
      linarith
    rw [if_pos p1]
    exact classify_landscape_of_margin w h hh (by linarith)

/-- No computed ratio passes both tests. -/
theorem not_isLandscape_and_isPortrait (ρ : ℚ) : ¬ (isLandscape ρ ∧ isPortrait ρ) := by
  rintro ⟨h1, h2⟩
  unfold isLandscape F64.abs F64.sub at h1
  unfold isPortrait F64.abs F64.sub at h2
  rw [F64.c0_1_eq, F64.c16_9_eq] at h1
  rw [F64.c0_1_eq, F64.c9_16_eq] at h2
  have g1 := F64.abs_round_ge (ρ - 2001599834386887 / 1125899906842624)
  have g2 := F64.abs_round_ge (ρ - 9 / 16)
  have a1 := neg_abs_le (ρ - 2001599834386887 / 1125899906842624)
  have a2 := le_abs_self (ρ - 9 / 16)
  norm_num at g1 g2 h1 h2
  linarith

theorem classifyPortraitFirst_eq (w h : ℤ) : classifyPortraitFirst w h = classify w h := by
  unfold classifyPortraitFirst classify
  by_cases hl : isLandscape (ratioOf w h) <;> by_cases hp : isPortrait (ratioOf w h)
  · exact absurd ⟨hl, hp⟩ (not_isLandscape_and_isPortrait _)
  · rw [if_neg hp, if_pos hl, if_pos hl]
  · rw [if_pos hp, if_neg hl, if_pos hp]
  · rw [if_neg hp, if_neg hl, if_neg hl, if_neg hp]

/-- Lines 34-58 never index an empty stream list. -/
theorem aspectRatioOfOutput_ne_panic (output : ffprobeOutput) (msg : String) :
    aspectRatioOfOutput output ≠ .panic msg := by
  unfold aspectRatioOfOutput
  rcases output with ⟨streams⟩
  cases streams with
  | nil => simp
  | cons s rest =>
    simp only [List.length_cons, List.getElem?_cons_zero]
    split_ifs <;> simp

/-! ## The claims -/

/-- C1 (as stated, refuted): for the first stream `151x90` the exact quotient is at distance
exactly `0.1` from `16/9` and far from `9/16`, so the stated rule gives "other", while
`getVideoAspectRatio` returns "16:9". -/
theorem C1_counterexample :
    exactLabel 151 90 = "other" ∧
      getVideoAspectRatio (probeWorld ⟨[⟨151, 90⟩]⟩) "video.mp4" = .ret "16:9" none := by
  constructor
  · unfold exactLabel
    rw [if_neg (by norm_num [abs_lt]), if_neg (by norm_num [abs_lt])]
  · rw [getVideoAspectRatio_of_probed _ _ _ (probed_probeWorld _ _),
      aspectRatioOfOutput_cons _ _ (by decide) (by decide), classify_151_90]

/-- C1 (amended): for every probe result with a non-empty stream list whose first stream has
non-zero width and height, `getVideoAspectRatio` succeeds with the label computed in
`float64` arithmetic, and that label is the one of the exact rule (exact quotient against
`16/9`, then `9/16`, tolerance `0.1`) whenever the exact quotient keeps a distance of
`10^-14` from the end points of the two windows. -/
theorem C1_label_of_nonzero_dimensions (W : World) (filePath : String) (s : ProbeStream)
    (rest : List ProbeStream) (hp : Probed W filePath ⟨s :: rest⟩) (hw : s.Width ≠ 0)
    (hh : s.Height ≠ 0) :
    getVideoAspectRatio W filePath = .ret (classify s.Width s.Height) none ∧
      (ClearOfBoundaries s.Width s.Height →
        getVideoAspectRatio W filePath = .ret (exactLabel s.Width s.Height) none) := by
  have h := getVideoAspectRatio_of_probed W filePath _ hp
  rw [aspectRatioOfOutput_cons s rest hw hh] at h
  refine ⟨h, fun hc => ?_⟩
  rw [h, classify_eq_exactLabel _ _ hh hc]

/-- C1, the three dimensions named in the claim: `1920x1080` gives "16:9", `1080x1920` gives
"9:16" and `1000x1000` gives "other". -/
theorem C1_witness :
    getVideoAspectRatio (probeWorld ⟨[⟨1920, 1080⟩]⟩) "video.mp4" = .ret "16:9" none ∧
      getVideoAspectRatio (probeWorld ⟨[⟨1080, 1920⟩]⟩) "video.mp4" = .ret "9:16" none ∧
      getVideoAspectRatio (probeWorld ⟨[⟨1000, 1000⟩]⟩) "video.mp4" = .ret "other" none := by
  refine ⟨?_, ?_, ?_⟩
  · have h := (C1_label_of_nonzero_dimensions (probeWorld ⟨[⟨1920, 1080⟩]⟩) "video.mp4"
      ⟨1920, 1080⟩ [] (probed_probeWorld _ _) (by decide) (by decide)).2
      (by constructor <;> norm_num [abs_of_pos, abs_of_neg])
    rw [h]
    unfold exactLabel
    rw [if_pos (by norm_num [abs_lt])]
  · have h := (C1_label_of_nonzero_dimensions (probeWorld ⟨[⟨1080, 1920⟩]⟩) "video.mp4"
      ⟨1080, 1920⟩ [] (probed_probeWorld _ _) (by decide) (by decide)).2
      (by constructor <;> norm_num [abs_of_pos, abs_of_neg])
    rw [h]
    unfold exactLabel
    rw [if_neg (by norm_num [abs_lt]), if_pos (by norm_num [abs_lt])]
  · have h := (C1_label_of_nonzero_dimensions (probeWorld ⟨[⟨1000, 1000⟩]⟩) "video.mp4"
      ⟨1000, 1000⟩ [] (probed_probeWorld _ _) (by decide) (by decide)).2
      (by constructor <;> norm_num [abs_of_pos, abs_of_neg])
    rw [h]
    unfold exactLabel
    rw [if_neg (by norm_num [abs_lt]), if_neg (by norm_num [abs_lt])]

/-- C2 (as stated, refuted): `554x295` has a quotient within `0.1` of `1.778` but not of
`16/9`, and `getVideoAspectRatio` returns "other"; and `172586924495623x91910196476959`
has an exact quotient strictly within `0.1` of `16/9` (and of `1.778`), and
`getVideoAspectRatio` returns "other" as well, the rounded quotient falling outside. -/
theorem C2_counterexample :
    (|(554 : ℚ) / 295 - 1778 / 1000| < 1 / 10 ∧
      getVideoAspectRatio (probeWorld ⟨[⟨554, 295⟩]⟩) "video.mp4" = .ret "other" none) ∧
    (|(172586924495623 : ℚ) / 91910196476959 - 16 / 9| < 1 / 10 ∧
      |(172586924495623 : ℚ) / 91910196476959 - 1778 / 1000| < 1 / 10 ∧
      getVideoAspectRatio (probeWorld ⟨[⟨172586924495623, 91910196476959⟩]⟩) "video.mp4" =
        .ret "other" none) := by
  refine ⟨⟨by norm_num [abs_lt], ?_⟩, by norm_num [abs_lt], by norm_num [abs_lt], ?_⟩
  · rw [getVideoAspectRatio_of_probed _ _ _ (probed_probeWorld _ _),
      aspectRatioOfOutput_cons _ _ (by decide) (by decide),
      classify_other_of_margin _ _ (by decide) (by norm_num [abs_of_pos])
        (by norm_num [abs_of_pos])]
  · rw [getVideoAspectRatio_of_probed _ _ _ (probed_probeWorld _ _),
      aspectRatioOfOutput_cons _ _ (by decide) (by decide), classify_above_landscape]

/-- C2 (amended): for all `width, height > 0` whose exact quotient satisfies
`|width/height - 16/9| ≤ 0.1 - 10^-14`, `getVideoAspectRatio`, given a successful probe whose
first stream has these dimensions, returns "16:9". -/
theorem C2_landscape_window (W : World) (filePath : String) (s : ProbeStream)
    (rest : List ProbeStream) (hp : Probed W filePath ⟨s :: rest⟩) (hw : 0 < s.Width)
    (hh : 0 < s.Height)
    (hr : |(s.Width : ℚ) / s.Height - 16 / 9| ≤ 1 / 10 - 1 / 10 ^ 14) :
    getVideoAspectRatio W filePath = .ret "16:9" none := by
  rw [getVideoAspectRatio_of_probed W filePath _ hp,
    aspectRatioOfOutput_cons s rest hw.ne.symm hh.ne.symm,
    classify_landscape_of_margin _ _ hh.ne.symm hr]

/-- C2 at `1280x720`. -/
theorem C2_witness :
    |((1280 : ℤ) : ℚ) / (720 : ℤ) - 16 / 9| ≤ 1 / 10 - 1 / 10 ^ 14 ∧
      getVideoAspectRatio (probeWorld ⟨[⟨1280, 720⟩]⟩) "video.mp4" = .ret "16:9" none :=
  ⟨by norm_num [abs_of_nonneg],
    C2_landscape_window (probeWorld ⟨[⟨1280, 720⟩]⟩) "video.mp4" ⟨1280, 720⟩ []
      (probed_probeWorld _ _) (by decide) (by decide) (by norm_num [abs_of_nonneg])⟩

/-- C3 (as stated, refuted): `99x59` has a quotient neither within `0.1` of `1.778` nor
within `0.1` of `0.5625`, and `getVideoAspectRatio` returns "16:9"; `37x80` has a quotient
at distance exactly `0.1` from `0.5625`, hence not inside either open window, and the result
is "9:16"; `243743205639080x145277407334551` has a quotient at distance more than `0.1`
from `16/9`, from `1.778` and from `0.5625`, and the result is "16:9". -/
theorem C3_counterexample :
    (¬ |(99 : ℚ) / 59 - 1778 / 1000| ≤ 1 / 10 ∧ ¬ |(99 : ℚ) / 59 - 5625 / 10000| ≤ 1 / 10 ∧
      getVideoAspectRatio (probeWorld ⟨[⟨99, 59⟩]⟩) "video.mp4" = .ret "16:9" none) ∧
    (¬ |(37 : ℚ) / 80 - 16 / 9| < 1 / 10 ∧ ¬ |(37 : ℚ) / 80 - 1778 / 1000| < 1 / 10 ∧
      ¬ |(37 : ℚ) / 80 - 5625 / 10000| < 1 / 10 ∧
      getVideoAspectRatio (probeWorld ⟨[⟨37, 80⟩]⟩) "video.mp4" = .ret "9:16" none) ∧
    (¬ |(243743205639080 : ℚ) / 145277407334551 - 16 / 9| ≤ 1 / 10 ∧
      ¬ |(243743205639080 : ℚ) / 145277407334551 - 1778 / 1000| ≤ 1 / 10 ∧
      ¬ |(243743205639080 : ℚ) / 145277407334551 - 5625 / 10000| ≤ 1 / 10 ∧
      getVideoAspectRatio (probeWorld ⟨[⟨243743205639080, 145277407334551⟩]⟩) "video.mp4" =
        .ret "16:9" none) := by
  refine ⟨⟨by norm_num [abs_le], by norm_num [abs_le], ?_⟩,
    ⟨by norm_num [abs_lt], by norm_num [abs_lt], by norm_num [abs_lt], ?_⟩,
    ⟨by norm_num [abs_le], by norm_num [abs_le], by norm_num [abs_le], ?_⟩⟩
  · rw [getVideoAspectRatio_of_probed _ _ _ (probed_probeWorld _ _),
      aspectRatioOfOutput_cons _ _ (by decide) (by decide),
      classify_landscape_of_margin _ _ (by decide) (by rw [abs_le]; constructor <;> norm_num)]
  · rw [getVideoAspectRatio_of_probed _ _ _ (probed_probeWorld _ _),
      aspectRatioOfOutput_cons _ _ (by decide) (by decide), classify_37_80]
  · rw [getVideoAspectRatio_of_probed _ _ _ (probed_probeWorld _ _),
      aspectRatioOfOutput_cons _ _ (by decide) (by decide), classify_below_landscape]

/-- C3 (amended): for all `width, height > 0` whose exact quotient satisfies
`|width/height - 16/9| ≥ 0.1 + 10^-14` and `|width/height - 9/16| ≥ 0.1 + 10^-14`,
`getVideoAspectRatio`, given a successful probe whose first stream has these dimensions,
returns "other". -/
theorem C3_other_outside_windows (W : World) (filePath : String) (s : ProbeStream)
    (rest : List ProbeStream) (hp : Probed W filePath ⟨s :: rest⟩) (hw : 0 < s.Width)
    (hh : 0 < s.Height)
    (h169 : 1 / 10 + 1 / 10 ^ 14 ≤ |(s.Width : ℚ) / s.Height - 16 / 9|)
    (h916 : 1 / 10 + 1 / 10 ^ 14 ≤ |(s.Width : ℚ) / s.Height - 9 / 16|) :
    getVideoAspectRatio W filePath = .ret "other" none := by
  rw [getVideoAspectRatio_of_probed W filePath _ hp,
    aspectRatioOfOutput_cons s rest hw.ne.symm hh.ne.symm,
    classify_other_of_margin _ _ hh.ne.symm h169 h916]

/-- C3 at `640x480`. -/
theorem C3_witness :
    1 / 10 + 1 / 10 ^ 14 ≤ |((640 : ℤ) : ℚ) / (480 : ℤ) - 16 / 9| ∧
      1 / 10 + 1 / 10 ^ 14 ≤ |((640 : ℤ) : ℚ) / (480 : ℤ) - 9 / 16| ∧
      getVideoAspectRatio (probeWorld ⟨[⟨640, 480⟩]⟩) "video.mp4" = .ret "other" none :=
  ⟨by norm_num [abs_of_neg], by norm_num [abs_of_pos],
    C3_other_outside_windows (probeWorld ⟨[⟨640, 480⟩]⟩) "video.mp4" ⟨640, 480⟩ []
      (probed_probeWorld _ _) (by decide) (by decide) (by norm_num [abs_of_neg])
      (by norm_num [abs_of_pos])⟩

/-- Inside the exact 9:16 window the computed ratio is at most one, so the 16:9 test
fails, whatever the size of the dimensions. -/
theorem not_isLandscape_of_portrait_window (w h : ℤ) (hh : h ≠ 0)
    (hr : |(w : ℚ) / h - 9 / 16| < 1 / 10) : ¬ isLandscape (ratioOf w h) := by
  apply not_isLandscape_of_le_one
  have e := ratioOf_err w h hh
  rw [abs_lt] at hr
  have hpos : 0 < (w : ℚ) / h := by linarith [hr.1]
  rw [abs_of_pos hpos] at e
  have e2 := le_abs_self (ratioOf w h - (w : ℚ) / h)
  linarith [hr.2]

/-- C4 (as stated, refuted): `5967269506265913x9007199254741001` has an exact quotient
inside the 9:16 window, and `getVideoAspectRatio` returns "other": the height `2^53 + 9`
is rounded on conversion to `float64`. -/
theorem C4_counterexample :
    |(5967269506265913 : ℚ) / 9007199254741001 - 5625 / 10000| < 1 / 10 ∧
      getVideoAspectRatio (probeWorld ⟨[⟨5967269506265913, 9007199254741001⟩]⟩) "video.mp4" =
        .ret "other" none := by
  refine ⟨by norm_num [abs_lt], ?_⟩
  rw [getVideoAspectRatio_of_probed _ _ _ (probed_probeWorld _ _),
    aspectRatioOfOutput_cons _ _ (by decide) (by decide), classify_above_portrait]

/-- C4 (amended): for all `width, height > 0` whose exact quotient satisfies
`|width/height - 0.5625| < 0.1`, the 16:9 check never captures the ratio (the result is
never "16:9"), and `getVideoAspectRatio` returns "9:16" provided that both dimensions are
at most `2^53` or that `|width/height - 0.5625| ≤ 0.1 - 10^-14`. -/
theorem C4_portrait_window (W : World) (filePath : String) (s : ProbeStream)
    (rest : List ProbeStream) (hp : Probed W filePath ⟨s :: rest⟩) (hw : 0 < s.Width)
    (hh : 0 < s.Height) (hr : |(s.Width : ℚ) / s.Height - 9 / 16| < 1 / 10) :
    getVideoAspectRatio W filePath ≠ .ret "16:9" none ∧
      ((s.Width ≤ 2 ^ 53 ∧ s.Height ≤ 2 ^ 53) ∨
          |(s.Width : ℚ) / s.Height - 9 / 16| ≤ 1 / 10 - 1 / 10 ^ 14 →
        getVideoAspectRatio W filePath = .ret "9:16" none) := by
  have h := getVideoAspectRatio_of_probed W filePath _ hp
  rw [aspectRatioOfOutput_cons s rest hw.ne.symm hh.ne.symm] at h
  constructor
  · rw [h]
    have hl := not_isLandscape_of_portrait_window s.Width s.Height hh.ne.symm hr
    unfold classify
    rw [if_neg hl]
    split_ifs <;> simp
  · rintro (⟨h1, h2⟩ | h3)
    · rw [h, classify_portrait_exact _ _ hw hh h1 h2 hr]
    · rw [h, classify_portrait_of_margin _ _ hh.ne.symm h3]

/-- C4 at `1080x1920`. -/
theorem C4_witness :
    |((1080 : ℤ) : ℚ) / (1920 : ℤ) - 9 / 16| < 1 / 10 ∧
      getVideoAspectRatio (probeWorld ⟨[⟨1080, 1920⟩]⟩) "video.mp4" = .ret "9:16" none :=
  ⟨by norm_num,
    (C4_portrait_window (probeWorld ⟨[⟨1080, 1920⟩]⟩) "video.mp4" ⟨1080, 1920⟩ []
      (probed_probeWorld _ _) (by decide) (by decide) (by norm_num)).2
      (Or.inl ⟨by decide, by decide⟩)⟩

theorem isInvalidDimensionsError_errInvalidDimensions (w h : ℤ) :
    isInvalidDimensionsError (errInvalidDimensions w h) := by
  refine ⟨rfl, ?_⟩
  simp only [errInvalidDimensions, GoError.Error, String.data_append, List.append_assoc]
  exact List.prefix_append _ _

theorem not_isInvalidDimensionsError_errNoStreams : ¬ isInvalidDimensionsError errNoStreams := by
  rintro ⟨-, h⟩
  revert h
  simp only [errNoStreams, GoError.Error]
  decide

/-- The function never panics: the only index expression is guarded by line 34. -/
theorem getVideoAspectRatio_ne_panic (W : World) (filePath msg : String) :
    getVideoAspectRatio W filePath ≠ .panic msg := by
  unfold getVideoAspectRatio
  rcases hrun : W.run (ffprobeCmd filePath) with ⟨stdout, _ | err⟩
  · rcases hparse : W.unmarshal stdout with err | output
    · simp [hparse]
    · simpa [hparse] using aspectRatioOfOutput_ne_panic output msg
  · simp

/-- Where the error of line 42 can come from. -/
theorem invalidDimensions_only_of_zero (W : World) (filePath : String) (v : String) (e : GoError)
    (hret : getVideoAspectRatio W filePath = .ret v (some e))
    (he : isInvalidDimensionsError e) :
    ∃ s rest, Probed W filePath ⟨s :: rest⟩ ∧ (s.Width = 0 ∨ s.Height = 0) := by
  unfold getVideoAspectRatio at hret
  rcases hrun : W.run (ffprobeCmd filePath) with ⟨stdout, _ | err⟩
  · rw [hrun] at hret
    rcases hparse : W.unmarshal stdout with err | output
    · simp only [hparse, Outcome.ret.injEq, Option.some.injEq] at hret
      obtain ⟨-, rfl⟩ := hret
      exact absurd he.1 (by simp [errorfWrap, GoError.Unwrap])
    · simp only [hparse] at hret
      rcases output with ⟨streams⟩
      cases streams with
      | nil =>
        simp only [aspectRatioOfOutput, List.length_nil, if_true, Outcome.ret.injEq,
          Option.some.injEq] at hret
        obtain ⟨-, rfl⟩ := hret
        exact absurd he not_isInvalidDimensionsError_errNoStreams
      | cons s rest =>
        refine ⟨s, rest, ⟨stdout, hrun, hparse⟩, ?_⟩
        by_contra hz
        rw [not_or] at hz
        rw [aspectRatioOfOutput_cons s rest hz.1 hz.2] at hret
        simp at hret
  · rw [hrun] at hret
    simp only [Outcome.ret.injEq, Option.some.injEq] at hret
    obtain ⟨-, rfl⟩ := hret
    exact absurd he.1 (by simp [errorfWrap, GoError.Unwrap])

/-- C5: with a parsed, non-empty stream list, a first stream whose width or height is `0`
makes `getVideoAspectRatio` fail with the invalid-dimensions error, whatever the other
dimension is; its message ends with the two values as `<width>x<height>`; and the
invalid-dimensions error is returned only when one of the two is `0`, here and in every
other call (it then comes from a parsed, non-empty stream list). -/
theorem C5_invalid_dimensions (W : World) (filePath : String) (s : ProbeStream)
    (rest : List ProbeStream) (hp : Probed W filePath ⟨s :: rest⟩) :
    (s.Width = 0 ∨ s.Height = 0 →
        getVideoAspectRatio W filePath =
          .ret "" (some (errInvalidDimensions s.Width s.Height))) ∧
      (errInvalidDimensions s.Width s.Height).Error =
        "invalid dimensions in video file: " ++ fmtInt s.Width ++ "x" ++ fmtInt s.Height ∧
      isInvalidDimensionsError (errInvalidDimensions s.Width s.Height) ∧
      (∀ v e, getVideoAspectRatio W filePath = .ret v (some e) →
        isInvalidDimensionsError e → s.Width = 0 ∨ s.Height = 0) ∧
      (∀ (W0 : World) (path v : String) (e : GoError),
        getVideoAspectRatio W0 path = .ret v (some e) → isInvalidDimensionsError e →
        ∃ s0 rest0, Probed W0 path ⟨s0 :: rest0⟩ ∧ (s0.Width = 0 ∨ s0.Height = 0)) := by
  have h := getVideoAspectRatio_of_probed W filePath _ hp
  refine ⟨fun hz => ?_, rfl, isInvalidDimensionsError_errInvalidDimensions _ _, ?_,
    invalidDimensions_only_of_zero⟩
  · rw [h]
    simp [aspectRatioOfOutput, hz]
  · intro v e hret he
    by_contra hz
    rw [not_or] at hz
    rw [h, aspectRatioOfOutput_cons s rest hz.1 hz.2] at hret
    simp at hret

/-- C5 at the probe output of the specification, width `0` and height `1080`: the message
reports `0x1080`; and at width `-3`, height `0`. -/
theorem C5_witness :
    getVideoAspectRatio (probeWorld ⟨[⟨0, 1080⟩]⟩) "video.mp4" =
        .ret "" (some (.leaf "invalid dimensions in video file: 0x1080")) ∧
      getVideoAspectRatio (probeWorld ⟨[⟨-3, 0⟩, ⟨1920, 1080⟩]⟩) "video.mp4" =
        .ret "" (some (.leaf "invalid dimensions in video file: -3x0")) :=
  ⟨(C5_invalid_dimensions (probeWorld ⟨[⟨0, 1080⟩]⟩) "video.mp4" ⟨0, 1080⟩ []
      (probed_probeWorld _ _)).1 (Or.inl rfl),
    (C5_invalid_dimensions (probeWorld ⟨[⟨-3, 0⟩, ⟨1920, 1080⟩]⟩) "video.mp4" ⟨-3, 0⟩
      [⟨1920, 1080⟩] (probed_probeWorld _ _)).1 (Or.inr rfl)⟩

/-- C6: when the parsed stream list is empty, `getVideoAspectRatio` fails with the
no-streams-found error, which is not the invalid-dimensions error, and with the empty
label; and no call ever panics, the length check of line 34 preceding the only index
expression `Streams[0]`. -/
theorem C6_no_streams (W : World) (filePath : String) (output : ffprobeOutput)
    (hp : Probed W filePath output) (hempty : output.Streams = []) :
    getVideoAspectRatio W filePath = .ret "" (some errNoStreams) ∧
      isNoStreamsError errNoStreams ∧ ¬ isInvalidDimensionsError errNoStreams ∧
      errNoStreams.Error = "no streams found in video file" ∧
      (∀ (W0 : World) (path msg : String), getVideoAspectRatio W0 path ≠ .panic msg) := by
  refine ⟨?_, rfl, not_isInvalidDimensionsError_errNoStreams, rfl,
    fun W0 path msg => getVideoAspectRatio_ne_panic W0 path msg⟩
  rw [getVideoAspectRatio_of_probed W filePath _ hp]
  simp [aspectRatioOfOutput, hempty]

/-- C6 at the probe output with no stream. -/
theorem C6_witness :
    getVideoAspectRatio (probeWorld ⟨[]⟩) "video.mp4" =
      .ret "" (some (.leaf "no streams found in video file")) :=
  (C6_no_streams (probeWorld ⟨[]⟩) "video.mp4" ⟨[]⟩ (probed_probeWorld _ _) rfl).1

/-- C7: `getVideoPrefixFromAspectRatio` is defined on every string and has no error result;
it returns "landscape/" exactly for "16:9", "portrait/" exactly for "9:16" and "other/"
for every other string, among them "other", the empty string and unseen labels. -/
theorem C7_prefix_total (aspectRatio : String) :
    (getVideoPrefixFromAspectRatio aspectRatio = "landscape/" ↔ aspectRatio = "16:9") ∧
      (getVideoPrefixFromAspectRatio aspectRatio = "portrait/" ↔ aspectRatio = "9:16") ∧
      (getVideoPrefixFromAspectRatio aspectRatio = "other/" ↔
        (aspectRatio ≠ "16:9" ∧ aspectRatio ≠ "9:16")) ∧
      getVideoPrefixFromAspectRatio "other" = "other/" ∧
      getVideoPrefixFromAspectRatio "" = "other/" ∧
      getVideoPrefixFromAspectRatio "4:3" = "other/" := by
  refine ⟨?_, ?_, ?_, by decide, by decide, by decide⟩
  · unfold getVideoPrefixFromAspectRatio
    by_cases h1 : aspectRatio = "16:9"
    · simp [h1]
    · by_cases h2 : aspectRatio = "9:16"
      · simp [h2]
      · simp [h1, h2]
  · unfold getVideoPrefixFromAspectRatio
    by_cases h1 : aspectRatio = "16:9"
    · simp [h1]
    · by_cases h2 : aspectRatio = "9:16"
      · simp [h2]
      · simp [h1, h2]
  · unfold getVideoPrefixFromAspectRatio
    by_cases h1 : aspectRatio = "16:9"
    · simp [h1]
    · by_cases h2 : aspectRatio = "9:16"
      · simp [h2]
      · simp [h1, h2]

/-- C8: for every input path, when the subprocess reports success
`processVideoForFastStart` returns the path with ".processing" appended and no error;
when it reports the failure `err` it returns the empty path and an error that wraps `err`,
its message being "failed to process video for fast start: " followed by the message of
`err`; and two worlds whose subprocess status agree give the same result. -/
theorem C8_fast_start_result (W : World) (filepath : String) :
    ((W.run (ffmpegCmd filepath)).2 = none →
        processVideoForFastStart W filepath = .ret (filepath ++ ".processing") none) ∧
      (∀ err, (W.run (ffmpegCmd filepath)).2 = some err →
        processVideoForFastStart W filepath =
            .ret "" (some (errorfWrap "failed to process video for fast start" err)) ∧
          (errorfWrap "failed to process video for fast start" err).Unwrap = some err ∧
          (errorfWrap "failed to process video for fast start" err).Error =
            "failed to process video for fast start: " ++ err.Error) ∧
      (∀ W0 : World, (W0.run (ffmpegCmd filepath)).2 = (W.run (ffmpegCmd filepath)).2 →
        processVideoForFastStart W0 filepath = processVideoForFastStart W filepath) := by
  refine ⟨fun h => ?_, fun err h => ⟨?_, rfl, rfl⟩, fun W0 h => ?_⟩
  · unfold processVideoForFastStart
    simp only [h]
  · unfold processVideoForFastStart
    simp only [h]
  · unfold processVideoForFastStart
    simp only [h]

/-- C8 at the path "clip.mp4": success gives "clip.mp4.processing"; a failing subprocess
gives the wrapped error, whatever it wrote. -/
theorem C8_witness :
    processVideoForFastStart (probeWorld ⟨[]⟩) "clip.mp4" = .ret "clip.mp4.processing" none ∧
      processVideoForFastStart (failingWorld [] (.leaf "exit status 1")) "clip.mp4" =
        .ret "" (some (.wrap "failed to process video for fast start: exit status 1"
          (.leaf "exit status 1"))) :=
  ⟨(C8_fast_start_result (probeWorld ⟨[]⟩) "clip.mp4").1 rfl,
    ((C8_fast_start_result (failingWorld [] (.leaf "exit status 1")) "clip.mp4").2.1
      (.leaf "exit status 1") rfl).1⟩

/-- C9: the two tolerance windows are disjoint, both in exact arithmetic (no `r` has
`|r - 16/9| < 0.1` and `|r - 9/16| < 0.1`) and for the two `float64` tests of lines 48 and
53 (no computed ratio passes both); consequently the variant of `getVideoAspectRatio` that
evaluates the 9:16 test first returns the same result in every world, for every path. -/
theorem C9_windows_disjoint :
    (∀ r : ℚ, ¬ (|r - 16 / 9| < 1 / 10 ∧ |r - 9 / 16| < 1 / 10)) ∧
      (∀ ratio : ℚ, ¬ (isLandscape ratio ∧ isPortrait ratio)) ∧
      (∀ width height : Int, classifyPortraitFirst width height = classify width height) ∧
      (∀ (W : World) (filePath : String),
        getVideoAspectRatioPortraitFirst W filePath = getVideoAspectRatio W filePath) := by
  refine ⟨?_, not_isLandscape_and_isPortrait, classifyPortraitFirst_eq, ?_⟩
  · rintro r ⟨h1, h2⟩
    rw [abs_lt] at h1 h2
    linarith [h1.1, h2.2]
  · intro W filePath
    have key : ∀ output, aspectRatioOfOutputPortraitFirst output = aspectRatioOfOutput output := by
      intro output
      unfold aspectRatioOfOutputPortraitFirst aspectRatioOfOutput
      simp only [classifyPortraitFirst_eq]
    unfold getVideoAspectRatioPortraitFirst getVideoAspectRatio
    simp only [key]

/-- C10: only the first stream is consulted: two parsed probe results with non-empty stream
lists whose first streams have the same width and the same height give the same result,
label or error, whatever the remaining streams are. -/
theorem C10_first_stream_only (W1 W2 : World) (path1 path2 : String) (s1 s2 : ProbeStream)
    (rest1 rest2 : List ProbeStream) (hp1 : Probed W1 path1 ⟨s1 :: rest1⟩)
    (hp2 : Probed W2 path2 ⟨s2 :: rest2⟩) (hw : s1.Width = s2.Width)
    (hh : s1.Height = s2.Height) :
    getVideoAspectRatio W1 path1 = getVideoAspectRatio W2 path2 := by
  rw [getVideoAspectRatio_of_probed W1 path1 _ hp1, getVideoAspectRatio_of_probed W2 path2 _ hp2]
  simp [aspectRatioOfOutput, hw, hh]

/-- C10 at two probe results that share the first stream `1920x1080` only. -/
theorem C10_witness :
    getVideoAspectRatio (probeWorld ⟨[⟨1920, 1080⟩]⟩) "a.mp4" =
      getVideoAspectRatio (probeWorld ⟨[⟨1920, 1080⟩, ⟨0, 0⟩, ⟨1080, 1920⟩]⟩) "b.mp4" :=
  C10_first_stream_only (probeWorld ⟨[⟨1920, 1080⟩]⟩)
    (probeWorld ⟨[⟨1920, 1080⟩, ⟨0, 0⟩, ⟨1080, 1920⟩]⟩) "a.mp4" "b.mp4" ⟨1920, 1080⟩ ⟨1920, 1080⟩
    [] [⟨0, 0⟩, ⟨1080, 1920⟩] (probed_probeWorld _ _) (probed_probeWorld _ _) rfl rfl

/-- The label of lines 45-58 is one of the three fixed strings. -/
theorem classify_mem (w h : ℤ) :
    classify w h = "16:9" ∨ classify w h = "9:16" ∨ classify w h = "other" := by
  unfold classify
  split_ifs <;> simp

/-- Every way in which lines 34-58 can end. -/
theorem aspectRatioOfOutput_cases (output : ffprobeOutput) :
    (output.Streams = [] ∧ aspectRatioOfOutput output = .ret "" (some errNoStreams)) ∨
      (∃ s rest, output.Streams = s :: rest ∧ (s.Width = 0 ∨ s.Height = 0) ∧
        aspectRatioOfOutput output = .ret "" (some (errInvalidDimensions s.Width s.Height))) ∨
      (∃ s rest, output.Streams = s :: rest ∧ s.Width ≠ 0 ∧ s.Height ≠ 0 ∧
        aspectRatioOfOutput output = .ret (classify s.Width s.Height) none) := by
  rcases output with ⟨streams⟩
  cases streams with
  | nil => left; exact ⟨rfl, by simp [aspectRatioOfOutput]⟩
  | cons s rest =>
    by_cases hz : s.Width = 0 ∨ s.Height = 0
    · right; left
      exact ⟨s, rest, rfl, hz, by simp [aspectRatioOfOutput, hz]⟩
    · right; right
      rw [not_or] at hz
      exact ⟨s, rest, rfl, hz.1, hz.2, aspectRatioOfOutput_cons s rest hz.1 hz.2⟩

/-- Every way in which `getVideoAspectRatio` can end. -/
theorem getVideoAspectRatio_cases (W : World) (filePath : String) :
    (∃ stdout err, W.run (ffprobeCmd filePath) = (stdout, some err) ∧
        getVideoAspectRatio W filePath =
          .ret "" (some (errorfWrap "failed to run ffprobe" err))) ∨
      (∃ stdout err, W.run (ffprobeCmd filePath) = (stdout, none) ∧
        W.unmarshal stdout = .error err ∧
        getVideoAspectRatio W filePath =
          .ret "" (some (errorfWrap "failed to parse ffprobe output" err))) ∨
      (∃ output, Probed W filePath output ∧
        getVideoAspectRatio W filePath = aspectRatioOfOutput output) := by
  rcases hrun : W.run (ffprobeCmd filePath) with ⟨stdout, _ | err⟩
  · rcases hparse : W.unmarshal stdout with err | output
    · right; left
      refine ⟨stdout, err, rfl, hparse, ?_⟩
      unfold getVideoAspectRatio
      rw [hrun]
      simp only [hparse]
    · right; right
      exact ⟨output, ⟨stdout, hrun, hparse⟩,
        getVideoAspectRatio_of_probed W filePath output ⟨stdout, hrun, hparse⟩⟩
  · left
    refine ⟨stdout, err, rfl, ?_⟩
    unfold getVideoAspectRatio
    rw [hrun]

/-- C11: whenever `getVideoAspectRatio` succeeds its label is "16:9", "9:16" or "other", each
of the three occurs, and it succeeds exactly when the probe ran, its output parsed, the
stream list is non-empty and the first stream has non-zero width and height. -/
theorem C11_success_iff (W : World) (filePath : String) :
    (∀ label, getVideoAspectRatio W filePath = .ret label none →
        label = "16:9" ∨ label = "9:16" ∨ label = "other") ∧
      ((∃ label, getVideoAspectRatio W filePath = .ret label none) ↔
        ∃ s rest, Probed W filePath ⟨s :: rest⟩ ∧ s.Width ≠ 0 ∧ s.Height ≠ 0) ∧
      getVideoAspectRatio (probeWorld ⟨[⟨16, 9⟩]⟩) filePath = .ret "16:9" none ∧
      getVideoAspectRatio (probeWorld ⟨[⟨9, 16⟩]⟩) filePath = .ret "9:16" none ∧
      getVideoAspectRatio (probeWorld ⟨[⟨1, 1⟩]⟩) filePath = .ret "other" none := by
  have key : ∀ label, getVideoAspectRatio W filePath = .ret label none →
      ∃ s rest, Probed W filePath ⟨s :: rest⟩ ∧ s.Width ≠ 0 ∧ s.Height ≠ 0 ∧
        label = classify s.Width s.Height := by
    intro label hret
    rcases getVideoAspectRatio_cases W filePath with ⟨_, _, -, h⟩ | ⟨_, _, -, -, h⟩ |
      ⟨output, hp, h⟩
    · rw [h] at hret; simp at hret
    · rw [h] at hret; simp at hret
    · rw [h] at hret
      rcases aspectRatioOfOutput_cases output with ⟨-, h2⟩ | ⟨_, _, -, -, h2⟩ |
        ⟨s, rest, hs, hw, hh, h2⟩
      · rw [h2] at hret; simp at hret
      · rw [h2] at hret; simp at hret
      · rw [h2] at hret
        simp only [Outcome.ret.injEq, and_true] at hret
        rcases output with ⟨streams⟩
        simp only at hs
        subst hs
        exact ⟨s, rest, hp, hw, hh, hret.symm⟩
  refine ⟨?_, ⟨?_, ?_⟩, ?_, ?_, ?_⟩
  · intro label hret
    obtain ⟨s, rest, -, -, -, hl⟩ := key label hret
    rw [hl]; exact classify_mem _ _
  · rintro ⟨label, hret⟩
    obtain ⟨s, rest, hp, hw, hh, -⟩ := key label hret
    exact ⟨s, rest, hp, hw, hh⟩
  · rintro ⟨s, rest, hp, hw, hh⟩
    refine ⟨classify s.Width s.Height, ?_⟩
    rw [getVideoAspectRatio_of_probed W filePath _ hp, aspectRatioOfOutput_cons s rest hw hh]
  · rw [getVideoAspectRatio_of_probed _ _ _ (probed_probeWorld _ _),
      aspectRatioOfOutput_cons _ _ (by decide) (by decide),
      classify_landscape_of_margin _ _ (by decide) (by rw [abs_le]; constructor <;> norm_num)]
  · rw [getVideoAspectRatio_of_probed _ _ _ (probed_probeWorld _ _),
      aspectRatioOfOutput_cons _ _ (by decide) (by decide),
      classify_portrait_of_margin _ _ (by decide) (by rw [abs_le]; constructor <;> norm_num)]
  · rw [getVideoAspectRatio_of_probed _ _ _ (probed_probeWorld _ _),
      aspectRatioOfOutput_cons _ _ (by decide) (by decide),
      classify_other_of_margin _ _ (by decide) (by norm_num [abs_of_neg])
        (by norm_num [abs_of_pos])]

/-- C13: when the probe subprocess fails with `err`, `getVideoAspectRatio` fails with the
probe-execution error, which wraps `err`, whatever was captured on standard output and
whatever the parser would have made of it: the output is neither parsed nor classified. -/
theorem C13_probe_failure (W : World) (filePath : String) (stdout : List UInt8) (err : GoError)
    (hrun : W.run (ffprobeCmd filePath) = (stdout, some err)) :
    getVideoAspectRatio W filePath = .ret "" (some (errorfWrap "failed to run ffprobe" err)) ∧
      isProbeExecutionError (errorfWrap "failed to run ffprobe" err) ∧
      (errorfWrap "failed to run ffprobe" err).Unwrap = some err ∧
      (errorfWrap "failed to run ffprobe" err).Error = "failed to run ffprobe: " ++ err.Error ∧
      (∀ (W0 : World) (stdout0 : List UInt8),
        W0.run (ffprobeCmd filePath) = (stdout0, some err) →
        getVideoAspectRatio W0 filePath = getVideoAspectRatio W filePath) := by
  have h : ∀ (W0 : World) (stdout0 : List UInt8),
      W0.run (ffprobeCmd filePath) = (stdout0, some err) →
      getVideoAspectRatio W0 filePath =
        .ret "" (some (errorfWrap "failed to run ffprobe" err)) := by
    intro W0 stdout0 h0
    unfold getVideoAspectRatio
    rw [h0]
  refine ⟨h W stdout hrun, ⟨err, rfl⟩, rfl, rfl, fun W0 stdout0 h0 => ?_⟩
  rw [h W0 stdout0 h0, h W stdout hrun]

/-- C13 in a world where the failing probe has written the bytes of a well-formed answer and
the parser would yield `1920x1080`. -/
theorem C13_witness :
    getVideoAspectRatio
        ⟨fun _ => ([123, 125], some (.leaf "exit status 1")),
          fun _ => .ok ⟨[⟨1920, 1080⟩]⟩⟩ "video.mp4" =
      .ret "" (some (.wrap "failed to run ffprobe: exit status 1" (.leaf "exit status 1"))) :=
  (C13_probe_failure ⟨fun _ => ([123, 125], some (.leaf "exit status 1")),
    fun _ => .ok ⟨[⟨1920, 1080⟩]⟩⟩ "video.mp4" [123, 125] (.leaf "exit status 1") rfl).1

/-- C14: no label or path accompanies an error: whenever `getVideoAspectRatio` or
`processVideoForFastStart` returns an error the string it returns is empty, and a non-empty
string is returned only with a nil error. -/
theorem C14_no_partial_result (W : World) (path : String) :
    (∀ v e, getVideoAspectRatio W path = .ret v (some e) → v = "") ∧
      (∀ v e, processVideoForFastStart W path = .ret v (some e) → v = "") ∧
      (∀ v err, getVideoAspectRatio W path = .ret v err → v ≠ "" → err = none) ∧
      (∀ v err, processVideoForFastStart W path = .ret v err → v ≠ "" → err = none) := by
  have h1 : ∀ v e, getVideoAspectRatio W path = .ret v (some e) → v = "" := by
    intro v e hret
    rcases getVideoAspectRatio_cases W path with ⟨_, _, -, h⟩ | ⟨_, _, -, -, h⟩ |
      ⟨output, -, h⟩
    · rw [h] at hret; simp only [Outcome.ret.injEq] at hret; exact hret.1.symm
    · rw [h] at hret; simp only [Outcome.ret.injEq] at hret; exact hret.1.symm
    · rw [h] at hret
      rcases aspectRatioOfOutput_cases output with ⟨-, h2⟩ | ⟨_, _, -, -, h2⟩ |
        ⟨_, _, -, -, -, h2⟩
      · rw [h2] at hret; simp only [Outcome.ret.injEq] at hret; exact hret.1.symm
      · rw [h2] at hret; simp only [Outcome.ret.injEq] at hret; exact hret.1.symm
      · rw [h2] at hret; simp at hret
  have h2 : ∀ v e, processVideoForFastStart W path = .ret v (some e) → v = "" := by
    intro v e hret
    unfold processVideoForFastStart at hret
    rcases hrun : (W.run (ffmpegCmd path)).2 with _ | err
    · simp [hrun] at hret
    · simp only [hrun, Outcome.ret.injEq] at hret; exact hret.1.symm
  refine ⟨h1, h2, fun v err hret hv => ?_, fun v err hret hv => ?_⟩
  · cases err with
    | none => rfl
    | some e => exact absurd (h1 v e hret) hv
  · cases err with
    | none => rfl
    | some e => exact absurd (h2 v e hret) hv

/-- C15: for every input path `p`, `processVideoForFastStart` runs the program "ffmpeg" with
the arguments `-i p -c copy -f mp4 -movflags faststart p.processing`: its result depends on
the world only through the outcome of that command, a world in which exactly one command
fails makes it fail precisely when that command is this one, and the last argument is the
path returned on success. -/
theorem C15_ffmpeg_invocation (p : String) :
    ffmpegCmd p = ⟨"ffmpeg", ["-i", p, "-c", "copy", "-f", "mp4", "-movflags", "faststart",
        p ++ ".processing"]⟩ ∧
      (ffmpegCmd p).args.getLast? = some (p ++ ".processing") ∧
      (∀ W : World, (W.run (ffmpegCmd p)).2 = none →
        processVideoForFastStart W p = .ret (p ++ ".processing") none) ∧
      (∀ W W0 : World, W.run (ffmpegCmd p) = W0.run (ffmpegCmd p) →
        processVideoForFastStart W p = processVideoForFastStart W0 p) ∧
      (∀ (c : Cmd) (err : GoError) (output : ffprobeOutput),
        processVideoForFastStart (failsOn c err output) p =
            .ret "" (some (errorfWrap "failed to process video for fast start" err)) ↔
          c = ⟨"ffmpeg", ["-i", p, "-c", "copy", "-f", "mp4", "-movflags", "faststart",
            p ++ ".processing"]⟩) := by
  refine ⟨rfl, rfl, fun W h => ?_, fun W W0 h => ?_, fun c err output => ?_⟩
  · unfold processVideoForFastStart
    simp only [h]
  · unfold processVideoForFastStart
    simp only [h]
  · by_cases hc : ffmpegCmd p = c
    · have hrun : ((failsOn c err output).run (ffmpegCmd p)).2 = some err := by
        simp [failsOn, hc]
      constructor
      · intro _; exact hc.symm
      · intro _
        unfold processVideoForFastStart
        simp only [hrun]
    · have hrun : ((failsOn c err output).run (ffmpegCmd p)).2 = none := by
        simp [failsOn, hc]
      constructor
      · intro h
        unfold processVideoForFastStart at h
        simp [hrun] at h
      · intro h
        exact absurd h.symm hc

/-- C16: for every input path `p`, `getVideoAspectRatio` runs the program "ffprobe" with the
arguments `-v error -print_format json -show_streams p`, the path being the last of six
arguments: its result depends on the world only through the outcome of that command and the
parser, and a world in which exactly one command fails makes it fail with the
probe-execution error precisely when that command is this one. -/
theorem C16_ffprobe_invocation (p : String) :
    ffprobeCmd p = ⟨"ffprobe", ["-v", "error", "-print_format", "json", "-show_streams", p]⟩ ∧
      (ffprobeCmd p).args.getLast? = some p ∧ (ffprobeCmd p).args.length = 6 ∧
      (∀ W W0 : World, W.run (ffprobeCmd p) = W0.run (ffprobeCmd p) →
        W.unmarshal = W0.unmarshal →
        getVideoAspectRatio W p = getVideoAspectRatio W0 p) ∧
      (∀ (c : Cmd) (err : GoError) (output : ffprobeOutput),
        getVideoAspectRatio (failsOn c err output) p =
            .ret "" (some (errorfWrap "failed to run ffprobe" err)) ↔
          c = ⟨"ffprobe", ["-v", "error", "-print_format", "json", "-show_streams", p]⟩) := by
  refine ⟨rfl, rfl, rfl, fun W W0 h hu => ?_, fun c err output => ?_⟩
  · unfold getVideoAspectRatio
    rw [h, hu]
  · by_cases hc : ffprobeCmd p = c
    · have hrun : (failsOn c err output).run (ffprobeCmd p) = ([], some err) := by
        simp [failsOn, hc]
      constructor
      · intro _; exact hc.symm
      · intro _
        unfold getVideoAspectRatio
        rw [hrun]
    · have hrun : (failsOn c err output).run (ffprobeCmd p) = ([], none) := by
        simp [failsOn, hc]
      constructor
      · intro h
        have hp : Probed (failsOn c err output) p output := ⟨[], hrun, rfl⟩
        rw [getVideoAspectRatio_of_probed _ _ _ hp] at h
        rcases aspectRatioOfOutput_cases output with ⟨-, h2⟩ | ⟨_, _, -, -, h2⟩ |
          ⟨_, _, -, -, -, h2⟩
        · rw [h2] at h; simp [errNoStreams, errorfWrap] at h
        · rw [h2] at h; simp [errInvalidDimensions, errorfWrap] at h
        · rw [h2] at h; simp at h
      · intro h
        exact absurd h.symm hc

/-- C19: a first stream whose width and height are non-zero and of opposite signs is not
rejected: `getVideoAspectRatio` succeeds and returns "other"; and the invalid-dimensions
error arises only from a width or a height equal to `0`. -/
theorem C19_opposite_signs (W : World) (filePath : String) (s : ProbeStream)
    (rest : List ProbeStream) (hp : Probed W filePath ⟨s :: rest⟩)
    (hsign : (s.Width < 0 ∧ 0 < s.Height) ∨ (0 < s.Width ∧ s.Height < 0)) :
    getVideoAspectRatio W filePath = .ret "other" none ∧
      (∀ v e, getVideoAspectRatio W filePath = .ret v (some e) → False) ∧
      (∀ (W0 : World) (path v : String) (e : GoError),
        getVideoAspectRatio W0 path = .ret v (some e) → isInvalidDimensionsError e →
        ∃ s0 rest0, Probed W0 path ⟨s0 :: rest0⟩ ∧ (s0.Width = 0 ∨ s0.Height = 0)) := by
  have hw : s.Width ≠ 0 := by rcases hsign with ⟨h, -⟩ | ⟨h, -⟩ <;> omega
  have hh : s.Height ≠ 0 := by rcases hsign with ⟨-, h⟩ | ⟨-, h⟩ <;> omega
  have hneg : (s.Width : ℚ) / s.Height < 0 := by
    rcases hsign with ⟨h1, h2⟩ | ⟨h1, h2⟩
    · exact div_neg_of_neg_of_pos (by exact_mod_cast h1) (by exact_mod_cast h2)
    · exact div_neg_of_pos_of_neg (by exact_mod_cast h1) (by exact_mod_cast h2)
  have hres : getVideoAspectRatio W filePath = .ret "other" none := by
    rw [getVideoAspectRatio_of_probed W filePath _ hp, aspectRatioOfOutput_cons s rest hw hh,
      classify_other_of_margin _ _ hh
        (by rw [abs_of_neg (by linarith)]; norm_num; linarith)
        (by rw [abs_of_neg (by linarith)]; norm_num; linarith)]
  refine ⟨hres, fun v e h => ?_, invalidDimensions_only_of_zero⟩
  rw [hres] at h
  simp at h

/-- C19 at `-1920x1080` and at `1920x-1080`. -/
theorem C19_witness :
    getVideoAspectRatio (probeWorld ⟨[⟨-1920, 1080⟩]⟩) "video.mp4" = .ret "other" none ∧
      getVideoAspectRatio (probeWorld ⟨[⟨1920, -1080⟩]⟩) "video.mp4" = .ret "other" none :=
  ⟨(C19_opposite_signs (probeWorld ⟨[⟨-1920, 1080⟩]⟩) "video.mp4" ⟨-1920, 1080⟩ []
      (probed_probeWorld _ _) (Or.inl ⟨by decide, by decide⟩)).1,
    (C19_opposite_signs (probeWorld ⟨[⟨1920, -1080⟩]⟩) "video.mp4" ⟨1920, -1080⟩ []
      (probed_probeWorld _ _) (Or.inr ⟨by decide, by decide⟩)).1⟩

/-- A computed ratio that passes the 16:9 test lies between `1.65` and `1.9`. -/
theorem isLandscape_bounds (ρ : ℚ) (h : isLandscape ρ) : 33 / 20 ≤ ρ ∧ ρ ≤ 19 / 10 := by
  unfold isLandscape F64.abs F64.sub at h
  rw [F64.c0_1_eq, F64.c16_9_eq] at h
  have g := F64.abs_round_ge (ρ - 2001599834386887 / 1125899906842624)
  have a1 := neg_abs_le (ρ - 2001599834386887 / 1125899906842624)
  have a2 := le_abs_self (ρ - 2001599834386887 / 1125899906842624)
  norm_num at g h
  constructor <;> linarith

/-- A label "16:9" means that the 16:9 test passed. -/
theorem isLandscape_of_classify (w h : ℤ) (hc : classify w h = "16:9") :
    isLandscape (ratioOf w h) := by
  by_contra hl
  unfold classify at hc
  rw [if_neg hl] at hc
  split_ifs at hc <;> simp at hc

/-- Transposing dimensions labelled "16:9" gives dimensions labelled "9:16". -/
theorem classify_transpose (w h : ℤ) (hw : w ≠ 0) (hh : h ≠ 0) (hc : classify w h = "16:9") :
    classify h w = "9:16" := by
  obtain ⟨b1, b2⟩ := isLandscape_bounds _ (isLandscape_of_classify w h hc)
  have e := ratioOf_err w h hh
  have hwq : (w : ℚ) ≠ 0 := by exact_mod_cast hw
  have hhq : (h : ℚ) ≠ 0 := by exact_mod_cast hh
  rw [abs_le] at e
  obtain ⟨e1, e2⟩ := e
  have hxpos : 0 < (w : ℚ) / h := by
    by_contra hneg
    rw [not_lt] at hneg
    rw [abs_of_nonpos hneg] at e1 e2
    linarith
  rw [abs_of_pos hxpos] at e1 e2
  have x1 : (8 : ℚ) / 5 ≤ (w : ℚ) / h := by linarith
  have x2 : (w : ℚ) / h ≤ 39 / 20 := by linarith
  have hy : (h : ℚ) / w = 1 / ((w : ℚ) / h) := by field_simp
  have y1 : (h : ℚ) / w ≤ 1 / (8 / 5) := by
    rw [hy]; exact one_div_le_one_div_of_le (by norm_num) x1
  have y2 : 1 / (39 / 20) ≤ (h : ℚ) / w := by
    rw [hy]; exact one_div_le_one_div_of_le hxpos x2
  apply classify_portrait_of_margin h w hw
  rw [abs_le]
  norm_num at y1 y2 ⊢
  constructor <;> linarith

/-- C17: transposing a landscape video gives a portrait one, but not conversely: for all
non-zero `w` and `h`, if `(w, h)` is labelled "16:9" then `(h, w)` is labelled "9:16", for
the label of lines 45-58 and for `getVideoAspectRatio` on a probe result with that first
stream; and `1x2` is labelled "9:16" while `2x1` is labelled "other". -/
theorem C17_transpose :
    (∀ w h : ℤ, w ≠ 0 → h ≠ 0 → classify w h = "16:9" → classify h w = "9:16") ∧
      (∀ (w h : ℤ) (p : String), w ≠ 0 → h ≠ 0 →
        getVideoAspectRatio (probeWorld ⟨[⟨w, h⟩]⟩) p = .ret "16:9" none →
        getVideoAspectRatio (probeWorld ⟨[⟨h, w⟩]⟩) p = .ret "9:16" none) ∧
      (∃ w h : ℤ, 0 < w ∧ 0 < h ∧ classify w h = "9:16" ∧ classify h w = "other") := by
  refine ⟨classify_transpose, ?_, ⟨1, 2, by decide, by decide, ?_, ?_⟩⟩
  · intro w h p hw hh hret
    rw [getVideoAspectRatio_of_probed _ _ _ (probed_probeWorld _ _),
      aspectRatioOfOutput_cons _ _ hw hh] at hret
    simp only [Outcome.ret.injEq, and_true] at hret
    rw [getVideoAspectRatio_of_probed _ _ _ (probed_probeWorld _ _),
      aspectRatioOfOutput_cons _ _ hh hw, classify_transpose w h hw hh hret]
  · exact classify_portrait_of_margin _ _ (by decide) (by rw [abs_le]; constructor <;> norm_num)
  · exact classify_other_of_margin _ _ (by decide) (by norm_num [abs_of_pos])
      (by norm_num [abs_of_pos])

/-- C17 at `16x9`: it is labelled "16:9", so `9x16` is labelled "9:16". -/
theorem C17_witness : classify 16 9 = "16:9" ∧ classify 9 16 = "9:16" :=
  ⟨classify_landscape_of_margin _ _ (by decide) (by rw [abs_le]; constructor <;> norm_num),
    C17_transpose.1 16 9 (by decide) (by decide)
      (classify_landscape_of_margin _ _ (by decide) (by rw [abs_le]; constructor <;> norm_num))⟩

/-- The exact quotient does not change when both dimensions are multiplied by `k`. -/
theorem scaled_quotient (w h k : ℤ) (hk : k ≠ 0) :
    ((k * w : ℤ) : ℚ) / ((k * h : ℤ) : ℚ) = (w : ℚ) / h := by
  have hkq : (k : ℚ) ≠ 0 := by exact_mod_cast hk
  push_cast
  exact mul_div_mul_left _ _ hkq

theorem exactLabel_scale (w h k : ℤ) (hk : k ≠ 0) :
    exactLabel (k * w) (k * h) = exactLabel w h := by
  unfold exactLabel
  rw [scaled_quotient w h k hk]

theorem clearOfBoundaries_scale (w h k : ℤ) (hk : k ≠ 0) (hc : ClearOfBoundaries w h) :
    ClearOfBoundaries (k * w) (k * h) := by
  unfold ClearOfBoundaries at hc ⊢
  rw [scaled_quotient w h k hk]
  exact hc

theorem abs_le_abs_mul (k n : ℤ) (hk : k ≠ 0) : |n| ≤ |k * n| := by
  rw [abs_mul]
  have h1 : 1 ≤ |k| := Int.one_le_abs hk
  have h2 : 0 ≤ |n| := abs_nonneg n
  nlinarith

/-- When the scaled dimensions still convert exactly, the computed ratio is unchanged. -/
theorem ratioOf_scale_exact (w h k : ℤ) (hk : k ≠ 0) (hw53 : |k * w| ≤ 2 ^ 53)
    (hh53 : |k * h| ≤ 2 ^ 53) : ratioOf (k * w) (k * h) = ratioOf w h := by
  rw [ratioOf_exact _ _ hw53 hh53,
    ratioOf_exact w h (le_trans (abs_le_abs_mul k w hk) hw53)
      (le_trans (abs_le_abs_mul k h hk) hh53),
    scaled_quotient w h k hk]

theorem ofInt_scaled_width : F64.ofInt (250000000000001 * 37) = 9250000000000036 := by
  unfold F64.ofInt
  rw [F64.round_eval_tie 53 4625000000000018 (by norm_num [abs_of_pos])
    (by norm_num [abs_of_pos]) (by norm_num)]
  norm_num

theorem ofInt_scaled_height : F64.ofInt (250000000000001 * 80) = 20000000000000080 := by
  unfold F64.ofInt
  rw [F64.round_eval 54 5000000000000020 (by norm_num [abs_of_pos])
    (by norm_num [abs_of_pos]) (by norm_num [abs_lt])]
  norm_num

theorem ratioOf_scaled :
    ratioOf (250000000000001 * 37) (250000000000001 * 80) = 8331659310635417 / 2 ^ 54 := by
  unfold ratioOf F64.div
  rw [ofInt_scaled_width, ofInt_scaled_height,
    F64.round_eval (-2) 8331659310635417 (by norm_num [abs_of_pos]) (by norm_num [abs_of_pos])
      (by norm_num [abs_lt])]
  norm_num

/-- The `float64` ratio just below the smallest one that passes the 9:16 test. -/
theorem not_isPortrait_below : ¬ isPortrait (8331659310635417 / 2 ^ 54) := by
  unfold isPortrait F64.abs F64.sub
  rw [F64.c0_1_eq, F64.c9_16_eq,
    F64.round_eval (-4) (-7205759403792796) (by norm_num [abs_of_neg])
      (by norm_num [abs_of_neg]) (by norm_num [abs_lt])]
  norm_num [abs_of_neg]

theorem classify_scaled :
    classify (250000000000001 * 37) (250000000000001 * 80) = "other" := by
  unfold classify
  rw [ratioOf_scaled, if_neg (not_isLandscape_of_le_one _ (by norm_num)),
    if_neg not_isPortrait_below]

/-- Outside the condition of exact division the label can change under scaling: `37x80` is
labelled "9:16", and with `k = 250000000000001` the dimensions `(k*37, k*80)`, which fit in
64 bits, are labelled "other", `k*37` exceeding `2^53` and being rounded by
`float64(width)`. -/
theorem scaled_label_above_2_53 :
    (250000000000001 * 37 : ℤ) < 2 ^ 63 ∧ (250000000000001 * 80 : ℤ) < 2 ^ 63 ∧
      getVideoAspectRatio (probeWorld ⟨[⟨37, 80⟩]⟩) "video.mp4" = .ret "9:16" none ∧
      getVideoAspectRatio (probeWorld ⟨[⟨250000000000001 * 37, 250000000000001 * 80⟩]⟩)
        "video.mp4" = .ret "other" none := by
  refine ⟨by norm_num, by norm_num, ?_, ?_⟩
  · rw [getVideoAspectRatio_of_probed _ _ _ (probed_probeWorld _ _),
      aspectRatioOfOutput_cons _ _ (by decide) (by decide), classify_37_80]
  · rw [getVideoAspectRatio_of_probed _ _ _ (probed_probeWorld _ _),
      aspectRatioOfOutput_cons _ _ (by decide) (by decide), classify_scaled]

/-- Equal labels give equal results of `getVideoAspectRatio` on the two probe results. -/
theorem getVideoAspectRatio_scale_of_classify (w h k : ℤ) (hw : w ≠ 0) (hh : h ≠ 0)
    (hk : k ≠ 0) (hcl : classify (k * w) (k * h) = classify w h) (p : String) :
    getVideoAspectRatio (probeWorld ⟨[⟨k * w, k * h⟩]⟩) p =
      getVideoAspectRatio (probeWorld ⟨[⟨w, h⟩]⟩) p := by
  rw [getVideoAspectRatio_of_probed _ _ _ (probed_probeWorld _ _),
    getVideoAspectRatio_of_probed _ _ _ (probed_probeWorld _ _),
    aspectRatioOfOutput_cons _ _ (mul_ne_zero hk hw) (mul_ne_zero hk hh),
    aspectRatioOfOutput_cons _ _ hw hh, hcl]

/-- C18: classification is scale-invariant when the ratio is taken as exact division: for
all non-zero integers `w`, `h` and `k` (negative `k` included, integers unbounded, so
without overflow), the label of the exact rule is the same for `(k*w, k*h)` and `(w, h)`;
the label computed by lines 45-58, and the result of `getVideoAspectRatio` on a probe result
with that first stream, are the same for `(k*w, k*h)` and `(w, h)` whenever the two computed
ratios are the exact quotients; and so they are whenever `k*w` and `k*h` are at most `2^53`
in magnitude or the exact quotient keeps a distance of `10^-14` from the end points of the
two windows. -/
theorem C18_scale_invariance (w h k : ℤ) (hw : w ≠ 0) (hh : h ≠ 0) (hk : k ≠ 0) :
    exactLabel (k * w) (k * h) = exactLabel w h ∧
      (ratioOf (k * w) (k * h) = ((k * w : ℤ) : ℚ) / ((k * h : ℤ) : ℚ) →
        ratioOf w h = (w : ℚ) / h →
        classify (k * w) (k * h) = classify w h ∧
          ∀ p : String, getVideoAspectRatio (probeWorld ⟨[⟨k * w, k * h⟩]⟩) p =
            getVideoAspectRatio (probeWorld ⟨[⟨w, h⟩]⟩) p) ∧
      ((|k * w| ≤ 2 ^ 53 ∧ |k * h| ≤ 2 ^ 53) ∨ ClearOfBoundaries w h →
        classify (k * w) (k * h) = classify w h ∧
          ∀ p : String, getVideoAspectRatio (probeWorld ⟨[⟨k * w, k * h⟩]⟩) p =
            getVideoAspectRatio (probeWorld ⟨[⟨w, h⟩]⟩) p) := by
  have hkh : k * h ≠ 0 := mul_ne_zero hk hh
  refine ⟨exactLabel_scale w h k hk, fun h1 h2 => ?_, fun hyp => ?_⟩
  · have hcl : classify (k * w) (k * h) = classify w h := by
      unfold classify
      rw [h1, h2, scaled_quotient w h k hk]
    exact ⟨hcl, getVideoAspectRatio_scale_of_classify w h k hw hh hk hcl⟩
  · have hcl : classify (k * w) (k * h) = classify w h := by
      rcases hyp with ⟨h1, h2⟩ | hc
      · unfold classify
        rw [ratioOf_scale_exact w h k hk h1 h2]
      · rw [classify_eq_exactLabel _ _ hkh (clearOfBoundaries_scale w h k hk hc),
          classify_eq_exactLabel _ _ hh hc, exactLabel_scale w h k hk]
    exact ⟨hcl, getVideoAspectRatio_scale_of_classify w h k hw hh hk hcl⟩

theorem ratioOf_3_2 : ratioOf 3 2 = ((3 : ℤ) : ℚ) / ((2 : ℤ) : ℚ) := by
  rw [ratioOf_exact _ _ (by norm_num) (by norm_num),
    F64.round_eval 0 6755399441055744 (by norm_num [abs_of_pos]) (by norm_num [abs_of_pos])
      (by norm_num [abs_lt])]
  norm_num

theorem ratioOf_3_2_scaled :
    ratioOf (-120 * 3) (-120 * 2) = ((-120 * 3 : ℤ) : ℚ) / ((-120 * 2 : ℤ) : ℚ) := by
  rw [ratioOf_exact _ _ (by norm_num) (by norm_num),
    F64.round_eval 0 6755399441055744 (by norm_num [abs_of_pos]) (by norm_num [abs_of_pos])
      (by norm_num [abs_lt])]
  norm_num

/-- C18 at `3x2` scaled by `-120`, where both computed ratios are the exact quotient `1.5`,
and at `16x9` scaled by `-120`. -/
theorem C18_witness :
    exactLabel (-120 * 3) (-120 * 2) = exactLabel 3 2 ∧
      classify (-120 * 3) (-120 * 2) = classify 3 2 ∧
      classify (-120 * 16) (-120 * 9) = classify 16 9 :=
  ⟨(C18_scale_invariance 3 2 (-120) (by decide) (by decide) (by decide)).1,
    ((C18_scale_invariance 3 2 (-120) (by decide) (by decide) (by decide)).2.1
      ratioOf_3_2_scaled ratioOf_3_2).1,
    ((C18_scale_invariance 16 9 (-120) (by decide) (by decide) (by decide)).2.2
      (Or.inl ⟨by decide, by decide⟩)).1⟩

/-! ## The parser and the shape of the probe output -/

theorem decodeInt_eq_none_iff (v : JSON) (cur : Int) :
    decodeInt v cur = none ↔ intMismatch v = true := by
  cases v <;> simp [decodeInt, intMismatch]

theorem decodeStreamMembers_eq_none_iff (ms : List (String × JSON)) :
    ∀ st : ProbeStream, decodeStreamMembers ms st = none ↔
      (ms.any fun m =>
        (keyMatches m.1 "width" || keyMatches m.1 "height") && intMismatch m.2) = true := by
  induction ms with
  | nil => intro st; simp [decodeStreamMembers]
  | cons m ms ih =>
    intro st
    rw [List.any_cons, Bool.or_eq_true]
    unfold decodeStreamMembers
    by_cases hw : keyMatches m.1 "width" = true
    · rw [if_pos hw]
      cases hd : decodeInt m.2 st.Width with
      | none =>
        have := (decodeInt_eq_none_iff m.2 st.Width).mp hd
        simp [hw, this]
      | some w =>
        have hm : intMismatch m.2 = false := by
          by_contra hne
          have := (decodeInt_eq_none_iff m.2 st.Width).mpr (by simpa using hne)
          rw [hd] at this; simp at this
        simp only [ih, hm, Bool.and_false, Bool.false_eq_true, false_or]
    · rw [if_neg hw]
      by_cases hh : keyMatches m.1 "height" = true
      · rw [if_pos hh]
        cases hd : decodeInt m.2 st.Height with
        | none =>
          have := (decodeInt_eq_none_iff m.2 st.Height).mp hd
          simp [hh, this]
        | some h =>
          have hm : intMismatch m.2 = false := by
            by_contra hne
            have := (decodeInt_eq_none_iff m.2 st.Height).mpr (by simpa using hne)
            rw [hd] at this; simp at this
          simp only [ih, hm, Bool.and_false, Bool.false_eq_true, false_or]
      · rw [if_neg hh]
        simp only [ih]
        simp [hw, hh]

theorem decodeStream_eq_none_iff (v : JSON) (cur : ProbeStream) :
    decodeStream v cur = none ↔ streamMismatch v = true := by
  cases v with
  | object members =>
    simp only [decodeStream, streamMismatch]
    exact decodeStreamMembers_eq_none_iff members cur
  | _ => simp [decodeStream, streamMismatch]

theorem decodeElems_eq_none_iff (es : List JSON) :
    ∀ backing : List ProbeStream,
      decodeElems es backing = none ↔ es.any streamMismatch = true := by
  induction es with
  | nil => intro backing; simp [decodeElems]
  | cons e es ih =>
    intro backing
    rw [List.any_cons, Bool.or_eq_true]
    unfold decodeElems
    cases hd : decodeStream e (backing.headD ⟨0, 0⟩) with
    | none =>
      have := (decodeStream_eq_none_iff e _).mp hd
      simp [this]
    | some st =>
      have hm : streamMismatch e = false := by
        by_contra hne
        have := (decodeStream_eq_none_iff e (backing.headD ⟨0, 0⟩)).mpr (by simpa using hne)
        rw [hd] at this; simp at this
      cases hr : decodeElems es backing.tail with
      | none =>
        have := (ih backing.tail).mp hr
        simp [this]
      | some sts =>
        have hn : ¬ (es.any streamMismatch = true) := by
          intro h; have := (ih backing.tail).mpr h; rw [hr] at this; simp at this
        simp [hm, hn]

theorem decodeStreams_eq_none_iff (v : JSON) (cur : SliceState) :
    decodeStreams v cur = none ↔ streamsMismatch v = true := by
  cases v with
  | array elems =>
    simp only [decodeStreams, streamsMismatch]
    cases elems with
    | nil => simp
    | cons e es =>
      rw [← decodeElems_eq_none_iff (e :: es) cur.backing]
      cases hd : decodeElems (e :: es) cur.backing <;> simp
  | _ => simp [decodeStreams, streamsMismatch]

theorem decodeOutputMembers_eq_none_iff (ms : List (String × JSON)) :
    ∀ cur : SliceState, decodeOutputMembers ms cur = none ↔
      (ms.any fun m => keyMatches m.1 "streams" && streamsMismatch m.2) = true := by
  induction ms with
  | nil => intro cur; simp [decodeOutputMembers]
  | cons m ms ih =>
    intro cur
    rw [List.any_cons, Bool.or_eq_true]
    unfold decodeOutputMembers
    by_cases hk : keyMatches m.1 "streams" = true
    · rw [if_pos hk]
      cases hd : decodeStreams m.2 cur with
      | none =>
        have := (decodeStreams_eq_none_iff m.2 cur).mp hd
        simp [hk, this]
      | some st =>
        have hm : streamsMismatch m.2 = false := by
          by_contra hne
          have := (decodeStreams_eq_none_iff m.2 cur).mpr (by simpa using hne)
          rw [hd] at this; simp at this
        simp only [ih, hm, Bool.and_false, Bool.false_eq_true, false_or]
    · rw [if_neg hk]
      simp only [ih]
      simp [hk]

/-- The decoder fails exactly on the documents with a value of the wrong type. -/
theorem decodeOutput_eq_none_iff (v : JSON) :
    decodeOutput v = none ↔ shapeMismatch v = true := by
  cases v with
  | object members =>
    simp only [decodeOutput, shapeMismatch]
    rw [← decodeOutputMembers_eq_none_iff members ⟨[], 0⟩]
    cases hd : decodeOutputMembers members ⟨[], 0⟩ <;> simp
  | _ => simp [decodeOutput, shapeMismatch]

/-- Members none of which is a `streams` member leave the slice as it is. -/
theorem decodeOutputMembers_of_no_streams (ms : List (String × JSON)) (cur : SliceState)
    (h : (ms.any fun m => keyMatches m.1 "streams") = false) :
    decodeOutputMembers ms cur = some cur := by
  induction ms with
  | nil => rfl
  | cons m ms ih =>
    rw [List.any_cons, Bool.or_eq_false_iff] at h
    unfold decodeOutputMembers
    rw [if_neg (by simp [h.1])]
    exact ih h.2

/-- A repeated "streams" member is decoded into the elements already stored: the second
array of one object with only a "height" keeps the width `16` of the first. -/
theorem decodeOutput_repeated_streams :
    decodeOutput (.object [
        ("streams", .array [.object [("width", .number "16"), ("height", .number "9")]]),
        ("streams", .array [.object [("height", .number "9")]])]) =
      some ⟨[⟨16, 9⟩]⟩ := by
  rfl

/-- When `json.Unmarshal` fails: on a syntax error or on a value of the wrong type. -/
theorem jsonUnmarshal_error_iff (scan : List UInt8 → Option JSON)
    (errOf : List UInt8 → GoError) (data : List UInt8) :
    (∃ err, jsonUnmarshal scan errOf data = .error err) ↔
      (scan data = none ∨ ∃ doc, scan data = some doc ∧ shapeMismatch doc = true) := by
  unfold jsonUnmarshal
  cases hs : scan data with
  | none => simp
  | some doc =>
    cases hd : decodeOutput doc with
    | none =>
      have := (decodeOutput_eq_none_iff doc).mp hd
      simp [this, hd]
    | some out =>
      have hn : ¬ (shapeMismatch doc = true) := by
        intro h; have := (decodeOutput_eq_none_iff doc).mpr h; rw [hd] at this; simp at this
      simp [hn, hd]

theorem jsonUnmarshal_error_eq (scan : List UInt8 → Option JSON)
    (errOf : List UInt8 → GoError) (data : List UInt8) (err : GoError)
    (h : jsonUnmarshal scan errOf data = .error err) : err = errOf data := by
  unfold jsonUnmarshal at h
  cases hs : scan data with
  | none => rw [hs] at h; simp at h; exact h.symm
  | some doc =>
    rw [hs] at h
    cases hd : decodeOutput doc with
    | none => simp [hd] at h; exact h.symm
    | some out => simp [hd] at h

theorem probed_jsonWorld (doc : JSON) (err : GoError) (p : String) (out : ffprobeOutput)
    (hd : decodeOutput doc = some out) : Probed (jsonWorld (some doc) err) p out := by
  refine ⟨[], rfl, ?_⟩
  simp [jsonWorld, jsonUnmarshal, hd]

theorem not_isProbeOutputParseError_leaf (msg : String) :
    ¬ isProbeOutputParseError (.leaf msg) := by
  rintro ⟨cause, h⟩
  simp [errorfWrap] at h

/-- C12 (as stated, refuted): a probe output that is the empty JSON object, which has no
"streams" key, is parsed without error and `getVideoAspectRatio` fails with the
no-streams-found error, not with the parse error; likewise the JSON `null`; and a stream
object without a "height" key is parsed with height `0` and leads to the invalid-dimensions
error. -/
theorem C12_counterexample :
    (getVideoAspectRatio (jsonWorld (some (.object [])) (.leaf "unexpected end of JSON input"))
        "video.mp4" = .ret "" (some errNoStreams) ∧
      ¬ isProbeOutputParseError errNoStreams) ∧
    getVideoAspectRatio (jsonWorld (some .null) (.leaf "unexpected end of JSON input"))
        "video.mp4" = .ret "" (some errNoStreams) ∧
    (getVideoAspectRatio
        (jsonWorld (some (.object [("streams", .array [.object [("width", .number "1920")]])]))
          (.leaf "unexpected end of JSON input")) "video.mp4" =
        .ret "" (some (errInvalidDimensions 1920 0)) ∧
      ¬ isProbeOutputParseError (errInvalidDimensions 1920 0)) := by
  refine ⟨⟨?_, not_isProbeOutputParseError_leaf _⟩, ?_, ?_, not_isProbeOutputParseError_leaf _⟩
  · rw [getVideoAspectRatio_of_probed _ _ ⟨[]⟩ (probed_jsonWorld _ _ _ _ (by rfl))]
    rfl
  · rw [getVideoAspectRatio_of_probed _ _ ⟨[]⟩ (probed_jsonWorld _ _ _ _ (by rfl))]
    rfl
  · rw [getVideoAspectRatio_of_probed _ _ ⟨[⟨1920, 0⟩]⟩ (probed_jsonWorld _ _ _ _ (by rfl))]
    simp [aspectRatioOfOutput]

/-- The decoder leaves the stream list empty on `null` and on an object without a
"streams" member. -/
theorem decodeOutput_of_no_streams (doc : JSON)
    (h : doc = .null ∨
      ∃ ms, doc = .object ms ∧ (ms.any fun m => keyMatches m.1 "streams") = false) :
    decodeOutput doc = some ⟨[]⟩ := by
  rcases h with rfl | ⟨ms, rfl, hms⟩
  · rfl
  · simp only [decodeOutput, decodeOutputMembers_of_no_streams ms ⟨[], 0⟩ hms]
    rfl

/-- C12 (amended): with `json.Unmarshal` as the parser, a probe output makes
`getVideoAspectRatio` fail with the probe-output-parse error, wrapping the error of the
parser, exactly when it is not JSON or is JSON with a value of the wrong type: a document
that is neither an object nor `null`, a "streams" member that is neither an array nor
`null`, an element that is neither an object nor `null`, or a "width" or "height" member
that is neither `null` nor an integer literal within 64 bits.  A missing key is no error:
on the document `null` and on an object without a "streams" member the result is the
no-streams-found error. -/
theorem C12_parse_error (W : World) (p : String) (stdout : List UInt8)
    (scan : List UInt8 → Option JSON) (errOf : List UInt8 → GoError)
    (hrun : W.run (ffprobeCmd p) = (stdout, none))
    (hU : W.unmarshal = jsonUnmarshal scan errOf) :
    ((scan stdout = none ∨ ∃ doc, scan stdout = some doc ∧ shapeMismatch doc = true) →
        getVideoAspectRatio W p =
          .ret "" (some (errorfWrap "failed to parse ffprobe output" (errOf stdout)))) ∧
      (∀ v e, getVideoAspectRatio W p = .ret v (some e) → isProbeOutputParseError e →
        (scan stdout = none ∨ ∃ doc, scan stdout = some doc ∧ shapeMismatch doc = true)) ∧
      isProbeOutputParseError (errorfWrap "failed to parse ffprobe output" (errOf stdout)) ∧
      (errorfWrap "failed to parse ffprobe output" (errOf stdout)).Unwrap =
        some (errOf stdout) ∧
      (∀ doc, scan stdout = some doc →
        (doc = .null ∨
          ∃ ms, doc = .object ms ∧ (ms.any fun m => keyMatches m.1 "streams") = false) →
        getVideoAspectRatio W p = .ret "" (some errNoStreams) ∧
          ¬ isProbeOutputParseError errNoStreams) := by
  refine ⟨fun hbad => ?_, fun v e hret he => ?_, ⟨_, rfl⟩, rfl, fun doc hs hdoc => ?_⟩
  · obtain ⟨err, herr⟩ := (jsonUnmarshal_error_iff scan errOf stdout).mpr hbad
    have he := jsonUnmarshal_error_eq scan errOf stdout err herr
    subst he
    unfold getVideoAspectRatio
    rw [hrun, hU]
    simp only [herr]
  · rw [← jsonUnmarshal_error_iff scan errOf stdout]
    cases hparse : jsonUnmarshal scan errOf stdout with
    | error err => exact ⟨err, rfl⟩
    | ok output =>
      exfalso
      have hp : Probed W p output := ⟨stdout, hrun, by rw [hU]; exact hparse⟩
      rw [getVideoAspectRatio_of_probed W p output hp] at hret
      rcases aspectRatioOfOutput_cases output with ⟨-, h2⟩ | ⟨_, _, -, -, h2⟩ |
        ⟨_, _, -, -, -, h2⟩
      · rw [h2] at hret
        simp only [Outcome.ret.injEq, Option.some.injEq] at hret
        rw [← hret.2] at he
        exact not_isProbeOutputParseError_leaf _ he
      · rw [h2] at hret
        simp only [Outcome.ret.injEq, Option.some.injEq] at hret
        rw [← hret.2] at he
        exact not_isProbeOutputParseError_leaf _ he
      · rw [h2] at hret; simp at hret
  · have hd := decodeOutput_of_no_streams doc hdoc
    have hp : Probed W p ⟨[]⟩ := by
      refine ⟨stdout, hrun, ?_⟩
      rw [hU]
      simp [jsonUnmarshal, hs, hd]
    refine ⟨?_, not_isProbeOutputParseError_leaf _⟩
    rw [getVideoAspectRatio_of_probed W p _ hp]
    rfl

/-- C12 at an output that is not JSON, at a stream whose width is a string, and at a stream
whose width is the non-integer number `1920.5`: each gives the parse error. -/
theorem C12_witness :
    getVideoAspectRatio (jsonWorld none (.leaf "invalid character")) "video.mp4" =
        .ret "" (some (.wrap "failed to parse ffprobe output: invalid character"
          (.leaf "invalid character"))) ∧
      getVideoAspectRatio (jsonWorld (some docWidthString) (.leaf "json: cannot unmarshal"))
          "video.mp4" =
        .ret "" (some (.wrap "failed to parse ffprobe output: json: cannot unmarshal"
          (.leaf "json: cannot unmarshal"))) ∧
      getVideoAspectRatio (jsonWorld (some docWidthFraction) (.leaf "json: cannot unmarshal"))
          "video.mp4" =
        .ret "" (some (.wrap "failed to parse ffprobe output: json: cannot unmarshal"
          (.leaf "json: cannot unmarshal"))) :=
  ⟨(C12_parse_error (jsonWorld none (.leaf "invalid character")) "video.mp4" []
      (fun _ => none) (fun _ => .leaf "invalid character") rfl rfl).1 (Or.inl rfl),
    (C12_parse_error (jsonWorld (some docWidthString) (.leaf "json: cannot unmarshal"))
      "video.mp4" [] (fun _ => some docWidthString) (fun _ => .leaf "json: cannot unmarshal")
      rfl rfl).1 (Or.inr ⟨docWidthString, rfl, by rfl⟩),
    (C12_parse_error (jsonWorld (some docWidthFraction) (.leaf "json: cannot unmarshal"))
      "video.mp4" [] (fun _ => some docWidthFraction) (fun _ => .leaf "json: cannot unmarshal")
      rfl rfl).1 (Or.inr ⟨docWidthFraction, rfl, by rfl⟩)⟩
